import Mathlib

/-!
Verification of the EpiSim.jl python wrapper's configuration core:
the dynamic schema validator (`episim_python/schema_validator.py`),
the configuration model (`episim_python/episim_utils.py`, modelled from
the specification where the source file is absent), and the stepping
date arithmetic of the `py_interface/EpiSim.py` wrapper.

JSON documents are embedded as a `Json` inductive; `json.dumps` /
`str.replace` / `json.loads` are modelled by executable functions on the
character level, so that the template-substitution pipeline of
`generate_schema` is reproduced exactly as the source composes it.
-/

namespace EpiSimVer

/-- JSON values as handled by the Python `json` module.  Numbers are
carried by their literal text (e.g. `num "0.3"`), so that serialisation
and reparsing of a number are exact and no floating point is involved. -/
inductive Json where
  | null : Json
  | bool (b : Bool) : Json
  | num (lit : String) : Json
  | str (s : String) : Json
  | arr (items : List Json) : Json
  | obj (fields : List (String × Json)) : Json

/-- Characters that can occur inside a JSON number literal. -/
def numChar (c : Char) : Bool :=
  c.isDigit || c = '-' || c = '+' || c = '.' || c = 'e' || c = 'E'

/-- Strings that serialise without escape sequences: no quote and no
backslash.  The Python serialiser escapes such characters; the
configuration and schema documents never contain them, so the embedding
restricts attention to escape-free strings. -/
def wfStr (s : String) : Bool := s.data.all (fun c => c != '"' && c != '\\')

/-- Well-formed number literals: nonempty, made of number characters,
starting with a digit or a minus sign. -/
def wfNum (lit : String) : Bool :=
  (!lit.data.isEmpty) && lit.data.all numChar &&
    Option.all (fun c => c.isDigit || c = '-') lit.data.head?

mutual
/-- Well-formed JSON documents: all strings escape-free, all number
literals valid. -/
def Json.wf : Json → Bool
  | .null => true
  | .bool _ => true
  | .num lit => wfNum lit
  | .str s => wfStr s
  | .arr items => wfList items
  | .obj fields => wfFields fields

/-- Well-formedness of a list of JSON values. -/
def wfList : List Json → Bool
  | [] => true
  | j :: rest => j.wf && wfList rest

/-- Well-formedness of the field list of a JSON object. -/
def wfFields : List (String × Json) → Bool
  | [] => true
  | (k, v) :: rest => wfStr k && v.wf && wfFields rest
end

mutual
/-- Model of `json.dumps` at the character level.  The serialisation is
whitespace-free; the source dumps with `indent=2`, but inter-token
whitespace can neither create nor destroy an occurrence of the quoted
sentinel and is discarded again by `json.loads`, so it is dropped from
the model.  String escaping is not modelled; `Json.wf` restricts the
domain to escape-free strings. -/
def dumpV : Json → List Char
  | .null => "null".data
  | .bool true => "true".data
  | .bool false => "false".data
  | .num lit => lit.data
  | .str s => '"' :: s.data ++ ['"']
  | .arr items => '[' :: dumpItems items ++ [']']
  | .obj fields => '{' :: dumpFields fields ++ ['}']

/-- Serialise the comma-separated items of a JSON array. -/
def dumpItems : List Json → List Char
  | [] => []
  | [j] => dumpV j
  | j :: rest => dumpV j ++ ',' :: dumpItems rest

/-- Serialise the comma-separated fields of a JSON object; a key/value
pair renders as the quoted key, a colon, and the value. -/
def dumpFields : List (String × Json) → List Char
  | [] => []
  | [(k, v)] => '"' :: k.data ++ '"' :: ':' :: dumpV v
  | (k, v) :: rest => ('"' :: k.data ++ '"' :: ':' :: dumpV v) ++ ',' :: dumpFields rest
end

/-- The placeholder marker used by the schema template for
group-size-dependent array length bounds. -/
def sentinel : String := "{GROUP_SIZE}"

/-- The quoted form of the sentinel as it occurs in serialised text;
this is the literal `'"{GROUP_SIZE}"'` of the source. -/
def quotedSentinel : String := "\"{GROUP_SIZE}\""

/-- Decimal digit character for a value below ten. -/
def digitChar (n : Nat) : Char := Char.ofNat (48 + n % 10)

/-- Decimal digit list of a natural number, with fuel so that the
definition is structurally recursive; `natDigits` supplies enough fuel. -/
def natDigitsGo : Nat → Nat → List Char
  | 0, _ => []
  | Nat.succ fuel, n =>
    if n < 10 then [digitChar n]
    else natDigitsGo fuel (n / 10) ++ [digitChar (n % 10)]

/-- Decimal digit list of a natural number. -/
def natDigits (n : Nat) : List Char := natDigitsGo (n + 1) n

/-- Model of Python `str` applied to an integer. -/
def intAsStr (i : Int) : String :=
  if i < 0 then ⟨'-' :: natDigits (-i).toNat⟩ else ⟨natDigits i.toNat⟩

mutual
/-- Typed tree transformation described by the spec: walk the parsed
template and replace every string value equal to the sentinel by the
(number literal of the) group size, leaving everything else unchanged. -/
def substGS (r : String) : Json → Json
  | .str s => if s = sentinel then .num r else .str s
  | .arr items => .arr (substGSList r items)
  | .obj fields => .obj (substGSFields r fields)
  | j => j

/-- Sentinel substitution on a list of JSON values. -/
def substGSList (r : String) : List Json → List Json
  | [] => []
  | j :: rest => substGS r j :: substGSList r rest

/-- Sentinel substitution on the fields of a JSON object (keys are left
untouched: only string values are substituted). -/
def substGSFields (r : String) : List (String × Json) → List (String × Json)
  | [] => []
  | (k, v) :: rest => (k, substGS r v) :: substGSFields r rest
end

/-- The spec's typed tree transformation at group size `n`. -/
def substGroupSize (n : Int) (t : Json) : Json := substGS (intAsStr n) t

/-- Worker for the model of `str.replace`: the numeric argument counts
characters still to be skipped because they belong to an occurrence of
the pattern that has just been replaced. -/
def replaceGo (P R : List Char) : List Char → Nat → List Char
  | [], _ => []
  | _ :: cs, Nat.succ k => replaceGo P R cs k
  | c :: cs, 0 =>
    if P.isPrefixOf (c :: cs) then R ++ replaceGo P R cs (P.length - 1)
    else c :: replaceGo P R cs 0

/-- Model of Python `str.replace` for a nonempty pattern: leftmost,
non-overlapping replacement of every occurrence of `P` by `R`. -/
def replaceL (P R : List Char) (s : List Char) : List Char := replaceGo P R s 0

mutual
/-- Fuel-indexed model of `json.loads` value parsing.  Whitespace
handling is omitted because the inputs of the pipeline come from the
whitespace-free serialiser. -/
def parseVal : Nat → List Char → Option (Json × List Char)
  | 0, _ => none
  | Nat.succ fuel, cs =>
    match cs with
    | [] => none
    | c :: rest =>
      if c = '{' then
        if rest.head? = some '}' then some (.obj [], rest.tail)
        else
          match parseFields fuel rest with
          | some (fs, rest2) =>
            if rest2.head? = some '}' then some (.obj fs, rest2.tail) else none
          | none => none
      else if c = '[' then
        if rest.head? = some ']' then some (.arr [], rest.tail)
        else
          match parseItems fuel rest with
          | some (js, rest2) =>
            if rest2.head? = some ']' then some (.arr js, rest2.tail) else none
          | none => none
      else if c = '"' then
        if (rest.dropWhile (fun d => d != '"')).head? = some '"' then
          some (.str ⟨rest.takeWhile (fun d => d != '"')⟩, (rest.dropWhile (fun d => d != '"')).tail)
        else none
      else if c = 't' then
        match rest with
        | 'r' :: 'u' :: 'e' :: rest2 => some (.bool true, rest2)
        | _ => none
      else if c = 'f' then
        match rest with
        | 'a' :: 'l' :: 's' :: 'e' :: rest2 => some (.bool false, rest2)
        | _ => none
      else if c = 'n' then
        match rest with
        | 'u' :: 'l' :: 'l' :: rest2 => some (.null, rest2)
        | _ => none
      else
        if ((c :: rest).takeWhile numChar).isEmpty then none
        else some (.num ⟨(c :: rest).takeWhile numChar⟩, (c :: rest).dropWhile numChar)

/-- Parse one or more comma-separated JSON values. -/
def parseItems : Nat → List Char → Option (List Json × List Char)
  | 0, _ => none
  | Nat.succ fuel, cs =>
    match parseVal fuel cs with
    | some (j, rest) =>
      if rest.head? = some ',' then
        match parseItems fuel rest.tail with
        | some (js, rest2) => some (j :: js, rest2)
        | none => none
      else some ([j], rest)
    | none => none

/-- Parse one or more comma-separated key/value pairs. -/
def parseFields : Nat → List Char → Option (List (String × Json) × List Char)
  | 0, _ => none
  | Nat.succ fuel, cs =>
    match cs with
    | '"' :: rest =>
      if (rest.dropWhile (fun d => d != '"')).head? = some '"' then
        if ((rest.dropWhile (fun d => d != '"')).tail).head? = some ':' then
          match parseVal fuel ((rest.dropWhile (fun d => d != '"')).tail).tail with
          | some (v, rest3) =>
            if rest3.head? = some ',' then
              match parseFields fuel rest3.tail with
              | some (fs, rest4) => some ((⟨rest.takeWhile (fun d => d != '"')⟩, v) :: fs, rest4)
              | none => none
            else some ([(⟨rest.takeWhile (fun d => d != '"')⟩, v)], rest3)
          | none => none
        else none
      else none
    | _ => none
end

/-- Model of `json.dumps` at the `String` level. -/
def Json.dumps (j : Json) : String := ⟨dumpV j⟩

/-- Model of Python `str.replace` at the `String` level. -/
def strReplace (s pat rep : String) : String := ⟨replaceL pat.data rep.data s.data⟩

/-- Model of `json.loads`: parse a complete document. -/
def Json.loads (s : String) : Option Json :=
  match parseVal (s.data.length + 1) s.data with
  | some (j, []) => some j
  | _ => none

/-- Faithful translation of `SchemaValidator.generate_schema`
(schema_validator.py lines 57-74): reject a group size below one, then
serialise the stored template, textually replace every quoted sentinel
by the literal group size, and reparse. -/
def generate_schema (schema_template : Json) (group_size : Int) : Except String Json :=
  if group_size < 1 then .error ("Group size must be at least 1")
  else
    let schema_str := schema_template.dumps
    let schema_str2 := strReplace schema_str quotedSentinel (intAsStr group_size)
    match Json.loads schema_str2 with
    | some j => .ok j
    | none => .error ("Invalid JSON in generated schema")

/-- Character list of the quoted sentinel pattern that the source
replaces in the serialised template. -/
def QS : List Char := quotedSentinel.data

/-- A character list that does not start with an opening brace; the
serialised text following any closing string-quote has this property. -/
def headNotBrace : List Char → Bool
  | [] => true
  | c :: _ => c != '{'

mutual
/-- No object key anywhere in the document equals the sentinel (keys are
not substituted by the tree transformation, so a sentinel key would make
the textual replacement corrupt the document). -/
def noSentKeys : Json → Bool
  | .arr items => noSentKeysList items
  | .obj fields => noSentKeysFields fields
  | _ => true

/-- Key condition on a list of JSON values. -/
def noSentKeysList : List Json → Bool
  | [] => true
  | j :: rest => noSentKeys j && noSentKeysList rest

/-- Key condition on the fields of a JSON object. -/
def noSentKeysFields : List (String × Json) → Bool
  | [] => true
  | (k, v) :: rest => (k != sentinel) && noSentKeys v && noSentKeysFields rest
end

theorem sent_no_quote : ∀ c ∈ sentinel.data, c ≠ '"' := by decide

theorem QS_cons : QS = '"' :: (sentinel.data ++ ['"']) := rfl

theorem numChar_ne_quote {c : Char} (h : numChar c = true) : c ≠ '"' := by
  intro he
  subst he
  simp [numChar] at h

theorem wfStr_no_quote {s : String} (h : wfStr s = true) : ∀ c ∈ s.data, c ≠ '"' := by
  intro c hc
  rw [wfStr, List.all_eq_true] at h
  have := h c hc
  simp only [Bool.and_eq_true, bne_iff_ne, ne_eq] at this
  exact this.1

theorem wfNum_no_quote {lit : String} (h : wfNum lit = true) : ∀ c ∈ lit.data, c ≠ '"' := by
  intro c hc
  rw [wfNum] at h
  simp only [Bool.and_eq_true, List.all_eq_true] at h
  exact numChar_ne_quote (h.1.2 c hc)

theorem strData_ne {s t : String} (h : s ≠ t) : s.data ≠ t.data := by
  intro hd
  apply h
  cases s
  cases t
  simp only at hd
  rw [hd]

theorem replaceGo_skip (P R cs : List Char) (k : Nat) :
    replaceGo P R cs k = replaceGo P R (cs.drop k) 0 := by
  induction cs generalizing k with
  | nil => cases k <;> simp [replaceGo]
  | cons c cs ih =>
    cases k with
    | zero => simp
    | succ k =>
      rw [replaceGo, List.drop_succ_cons]
      exact ih k

theorem replaceL_cons (P R : List Char) (c : Char) (cs : List Char) :
    replaceL P R (c :: cs) =
      if P.isPrefixOf (c :: cs) then R ++ replaceL P R (cs.drop (P.length - 1))
      else c :: replaceL P R cs := by
  show replaceGo P R (c :: cs) 0 = _
  rw [replaceGo, replaceGo_skip P R cs (P.length - 1)]
  rfl

theorem replaceL_exact (P R rest : List Char) (h : P ≠ []) :
    replaceL P R (P ++ rest) = R ++ replaceL P R rest := by
  cases P with
  | nil => exact absurd rfl h
  | cons p P' =>
    rw [List.cons_append, replaceL_cons]
    have hpre : (p :: P').isPrefixOf (p :: (P' ++ rest)) = true := by
      rw [List.isPrefixOf_iff_prefix]
      exact ⟨rest, by simp⟩
    rw [if_pos hpre]
    have hdrop : (P' ++ rest).drop ((p :: P').length - 1) = rest := by
      simp [List.drop_left]
    rw [hdrop]

theorem replaceL_raw (R u rest : List Char) (hu : ∀ c ∈ u, c ≠ '"') :
    replaceL QS R (u ++ rest) = u ++ replaceL QS R rest := by
  induction u with
  | nil => simp
  | cons c u ih =>
    rw [List.cons_append, replaceL_cons]
    have hnp : QS.isPrefixOf (c :: (u ++ rest)) = false := by
      rw [QS_cons]
      have hc : c ≠ '"' := hu c (by simp)
      simp [List.isPrefixOf, Ne.symm hc]
    rw [if_neg (by simp [hnp])]
    rw [ih (fun d hd => hu d (List.mem_cons_of_mem _ hd))]
    rfl

theorem not_prefix_close (rest : List Char) (h : headNotBrace rest = true) :
    QS.isPrefixOf ('"' :: rest) = false := by
  rw [QS_cons]
  have hsent : sentinel.data = '{' :: "GROUP_SIZE\x7d".data := rfl
  cases rest with
  | nil => simp [List.isPrefixOf, hsent]
  | cons c rest' =>
    have hc : c ≠ '{' := by
      simpa [headNotBrace, bne_iff_ne] using h
    simp [List.isPrefixOf, hsent, Ne.symm hc]

theorem prefix_quoted_eq (s t rest : List Char) (hs : ∀ c ∈ s, c ≠ '"')
    (ht : ∀ c ∈ t, c ≠ '"') (h : (t ++ ['"']) <+: (s ++ '"' :: rest)) : t = s := by
  induction s generalizing t with
  | nil =>
    cases t with
    | nil => rfl
    | cons b t' =>
      obtain ⟨u, hu⟩ := h
      rw [List.cons_append, List.nil_append] at hu
      have hb : b = '"' := by
        have := congrArg (fun l => l.head?) hu
        simpa using this
      exact absurd hb (ht b (by simp))
  | cons a s' ih =>
    cases t with
    | nil =>
      obtain ⟨u, hu⟩ := h
      rw [List.nil_append, List.cons_append] at hu
      have ha : '"' = a := by
        have := congrArg (fun l => l.head?) hu
        simpa using this
      exact absurd ha.symm (hs a (by simp))
    | cons b t' =>
      obtain ⟨u, hu⟩ := h
      rw [List.cons_append, List.cons_append, List.cons_append] at hu
      have hb : b = a := by
        have := congrArg (fun l => l.head?) hu
        simpa using this
      have htail : (t' ++ ['"']) <+: (s' ++ '"' :: rest) := by
        refine ⟨u, ?_⟩
        have := congrArg (fun l => l.tail) hu
        simpa using this
      have := ih t' (fun c hc => hs c (List.mem_cons_of_mem _ hc))
        (fun c hc => ht c (List.mem_cons_of_mem _ hc)) htail
      rw [hb, this]

theorem replaceL_quoted (R s rest : List Char) (hq : ∀ c ∈ s, c ≠ '"')
    (hne : s ≠ sentinel.data) (hrest : headNotBrace rest = true) :
    replaceL QS R ('"' :: s ++ '"' :: rest) = '"' :: s ++ '"' :: replaceL QS R rest := by
  rw [List.cons_append, replaceL_cons]
  have hnp : QS.isPrefixOf ('"' :: (s ++ '"' :: rest)) = false := by
    by_contra hcon
    rw [Bool.not_eq_false, QS_cons, List.isPrefixOf_iff_prefix] at hcon
    have hpre : (sentinel.data ++ ['"']) <+: (s ++ '"' :: rest) := by
      obtain ⟨u, hu⟩ := hcon
      refine ⟨u, ?_⟩
      have := congrArg (fun l => l.tail) hu
      simpa using this
    exact hne (prefix_quoted_eq s sentinel.data rest hq sent_no_quote hpre).symm
  rw [if_neg (by simp [hnp])]
  rw [replaceL_raw R s ('"' :: rest) hq]
  rw [replaceL_cons, if_neg (by simp [not_prefix_close rest hrest])]
  simp

theorem replaceL_char (R : List Char) (c : Char) (cs : List Char) (hc : c ≠ '"') :
    replaceL QS R (c :: cs) = c :: replaceL QS R cs := by
  have := replaceL_raw R [c] cs (by simpa using hc)
  simpa using this

mutual
/-- Textual replacement of the quoted sentinel distributes over the
serialisation as the tree substitution, for well-formed documents with
no sentinel keys, provided the following text does not begin with an
opening brace. -/
theorem replDump (r : String) : ∀ (t : Json) (rest : List Char),
    t.wf = true → noSentKeys t = true → headNotBrace rest = true →
    replaceL QS r.data (dumpV t ++ rest) = dumpV (substGS r t) ++ replaceL QS r.data rest
  | .null, rest, _, _, _ => by
    rw [show dumpV .null = ['n', 'u', 'l', 'l'] from rfl,
      replaceL_raw r.data ['n', 'u', 'l', 'l'] rest (by decide)]
    rfl
  | .bool b, rest, _, _, _ => by
    cases b
    · rw [show dumpV (.bool false) = ['f', 'a', 'l', 's', 'e'] from rfl,
        replaceL_raw r.data ['f', 'a', 'l', 's', 'e'] rest (by decide)]
      rfl
    · rw [show dumpV (.bool true) = ['t', 'r', 'u', 'e'] from rfl,
        replaceL_raw r.data ['t', 'r', 'u', 'e'] rest (by decide)]
      rfl
  | .num lit, rest, hw, _, _ => by
    rw [show dumpV (.num lit) = lit.data from rfl,
      replaceL_raw r.data lit.data rest (wfNum_no_quote (by simpa [Json.wf] using hw))]
    rfl
  | .str s, rest, hw, _, hrest => by
    by_cases hs : s = sentinel
    · subst hs
      rw [show dumpV (.str sentinel) ++ rest = QS ++ rest from rfl,
        replaceL_exact QS r.data rest (by decide),
        show substGS r (.str sentinel) = .num r by simp [substGS]]
      rfl
    · have hq : ∀ c ∈ s.data, c ≠ '"' := wfStr_no_quote (by simpa [Json.wf] using hw)
      rw [show substGS r (.str s) = .str s by simp [substGS, hs]]
      have h1 : dumpV (.str s) ++ rest = '"' :: s.data ++ '"' :: rest := by
        simp [dumpV]
      rw [h1, replaceL_quoted r.data s.data rest hq (strData_ne hs) hrest]
      simp [dumpV]
  | .arr items, rest, hw, hk, hrest => by
    have hw' : wfList items = true := by simpa [Json.wf] using hw
    have hk' : noSentKeysList items = true := by simpa [noSentKeys] using hk
    have h1 : dumpV (.arr items) ++ rest = '[' :: (dumpItems items ++ (']' :: rest)) := by
      simp [dumpV]
    rw [h1, replaceL_char r.data '[' _ (by decide),
      replDumpItems r items (']' :: rest) hw' hk' rfl,
      replaceL_char r.data ']' _ (by decide)]
    simp [dumpV, substGS]
  | .obj fields, rest, hw, hk, hrest => by
    have hw' : wfFields fields = true := by simpa [Json.wf] using hw
    have hk' : noSentKeysFields fields = true := by simpa [noSentKeys] using hk
    have h1 : dumpV (.obj fields) ++ rest = '{' :: (dumpFields fields ++ ('}' :: rest)) := by
      simp [dumpV]
    rw [h1, replaceL_char r.data '{' _ (by decide),
      replDumpFields r fields ('}' :: rest) hw' hk' rfl,
      replaceL_char r.data '}' _ (by decide)]
    simp [dumpV, substGS]

/-- Distribution of the textual replacement over serialised array items. -/
theorem replDumpItems (r : String) : ∀ (items : List Json) (rest : List Char),
    wfList items = true → noSentKeysList items = true → headNotBrace rest = true →
    replaceL QS r.data (dumpItems items ++ rest) =
      dumpItems (substGSList r items) ++ replaceL QS r.data rest
  | [], _, _, _, _ => by simp [dumpItems, substGSList]
  | [j], rest, hw, hk, hrest => by
    have hw' : j.wf = true := by simpa [wfList] using hw
    have hk' : noSentKeys j = true := by simpa [noSentKeysList] using hk
    rw [show dumpItems [j] = dumpV j from rfl, replDump r j rest hw' hk' hrest]
    rfl
  | j :: j2 :: rest2, rest, hw, hk, hrest => by
    simp only [wfList, Bool.and_eq_true] at hw
    obtain ⟨hwj, hwj2, hwr⟩ := hw
    simp only [noSentKeysList, Bool.and_eq_true] at hk
    obtain ⟨hkj, hkj2, hkr⟩ := hk
    have hwt : wfList (j2 :: rest2) = true := by
      simp only [wfList, Bool.and_eq_true]
      exact ⟨hwj2, hwr⟩
    have hkt : noSentKeysList (j2 :: rest2) = true := by
      simp only [noSentKeysList, Bool.and_eq_true]
      exact ⟨hkj2, hkr⟩
    have h1 : dumpItems (j :: j2 :: rest2) ++ rest
        = dumpV j ++ (',' :: (dumpItems (j2 :: rest2) ++ rest)) := by
      simp [dumpItems]
    rw [h1, replDump r j (',' :: (dumpItems (j2 :: rest2) ++ rest)) hwj hkj rfl,
      replaceL_char r.data ',' _ (by decide),
      replDumpItems r (j2 :: rest2) rest hwt hkt hrest]
    simp [dumpItems, substGSList]

/-- Distribution of the textual replacement over serialised object
fields. -/
theorem replDumpFields (r : String) : ∀ (fields : List (String × Json)) (rest : List Char),
    wfFields fields = true → noSentKeysFields fields = true → headNotBrace rest = true →
    replaceL QS r.data (dumpFields fields ++ rest) =
      dumpFields (substGSFields r fields) ++ replaceL QS r.data rest
  | [], _, _, _, _ => by simp [dumpFields, substGSFields]
  | [(k, v)], rest, hw, hk, hrest => by
    simp only [wfFields, Bool.and_eq_true] at hw
    obtain ⟨⟨hwk, hwv⟩, -⟩ := hw
    simp only [noSentKeysFields, Bool.and_eq_true, bne_iff_ne, ne_eq] at hk
    obtain ⟨⟨hkk, hkv⟩, -⟩ := hk
    have h1 : dumpFields [(k, v)] ++ rest
        = '"' :: k.data ++ '"' :: (':' :: (dumpV v ++ rest)) := by
      simp [dumpFields]
    rw [h1, replaceL_quoted r.data k.data (':' :: (dumpV v ++ rest))
        (wfStr_no_quote hwk) (strData_ne hkk) rfl,
      replaceL_char r.data ':' _ (by decide),
      replDump r v rest hwv hkv hrest]
    simp [dumpFields, substGSFields]
  | (k, v) :: (k2, v2) :: rest2, rest, hw, hk, hrest => by
    simp only [wfFields, Bool.and_eq_true] at hw
    obtain ⟨⟨hwk, hwv⟩, ⟨hwk2, hwv2⟩, hwr⟩ := hw
    simp only [noSentKeysFields, Bool.and_eq_true, bne_iff_ne, ne_eq] at hk
    obtain ⟨⟨hkk, hkv⟩, ⟨hkk2, hkv2⟩, hkr⟩ := hk
    have hwt : wfFields ((k2, v2) :: rest2) = true := by
      simp only [wfFields, Bool.and_eq_true]
      exact ⟨⟨hwk2, hwv2⟩, hwr⟩
    have hkt : noSentKeysFields ((k2, v2) :: rest2) = true := by
      simp only [noSentKeysFields, Bool.and_eq_true, bne_iff_ne, ne_eq]
      exact ⟨⟨hkk2, hkv2⟩, hkr⟩
    have h1 : dumpFields ((k, v) :: (k2, v2) :: rest2) ++ rest
        = '"' :: k.data ++ '"' :: (':' :: (dumpV v ++ (',' :: (dumpFields ((k2, v2) :: rest2) ++ rest)))) := by
      simp [dumpFields]
    rw [h1, replaceL_quoted r.data k.data
        (':' :: (dumpV v ++ (',' :: (dumpFields ((k2, v2) :: rest2) ++ rest))))
        (wfStr_no_quote hwk) (strData_ne hkk) rfl,
      replaceL_char r.data ':' _ (by decide),
      replDump r v (',' :: (dumpFields ((k2, v2) :: rest2) ++ rest)) hwv hkv rfl,
      replaceL_char r.data ',' _ (by decide),
      replDumpFields r ((k2, v2) :: rest2) rest hwt hkt hrest]
    simp [dumpFields, substGSFields]
end

/-- A character list whose head cannot continue a number literal. -/
def numStop : List Char → Bool
  | [] => true
  | c :: _ => !(numChar c)

/-- A character list that does not start with a comma. -/
def headNotComma : List Char → Bool
  | [] => true
  | c :: _ => c != ','

theorem strMk_data (s : String) : (⟨s.data⟩ : String) = s := by
  cases s
  rfl

theorem headNotComma_head {rest : List Char} (h : headNotComma rest = true) :
    ¬ rest.head? = some ',' := by
  cases rest with
  | nil => simp
  | cons c cs =>
    simp only [headNotComma, bne_iff_ne, ne_eq] at h
    simp [h]

theorem takeWhile_no_quote (u w : List Char) (hu : ∀ c ∈ u, c ≠ '"') :
    (u ++ '"' :: w).takeWhile (fun d => d != '"') = u := by
  induction u with
  | nil => simp
  | cons c u ih =>
    have hc : (c != '"') = true := by simpa using hu c (by simp)
    simp only [List.cons_append, List.takeWhile_cons, hc, if_true]
    rw [ih (fun d hd => hu d (List.mem_cons_of_mem _ hd))]

theorem dropWhile_no_quote (u w : List Char) (hu : ∀ c ∈ u, c ≠ '"') :
    (u ++ '"' :: w).dropWhile (fun d => d != '"') = '"' :: w := by
  induction u with
  | nil => simp
  | cons c u ih =>
    have hc : (c != '"') = true := by simpa using hu c (by simp)
    simp only [List.cons_append, List.dropWhile_cons, hc, if_true]
    exact ih (fun d hd => hu d (List.mem_cons_of_mem _ hd))

theorem takeWhile_num (u w : List Char) (hu : ∀ c ∈ u, numChar c = true)
    (hw : numStop w = true) : (u ++ w).takeWhile numChar = u := by
  induction u with
  | nil =>
    cases w with
    | nil => simp
    | cons c cs =>
      simp only [numStop, Bool.not_eq_true'] at hw
      simp [List.takeWhile_cons, hw]
  | cons c u ih =>
    simp only [List.cons_append, List.takeWhile_cons, hu c (by simp), if_true]
    rw [ih (fun d hd => hu d (List.mem_cons_of_mem _ hd))]

theorem dropWhile_num (u w : List Char) (hu : ∀ c ∈ u, numChar c = true)
    (hw : numStop w = true) : (u ++ w).dropWhile numChar = w := by
  induction u with
  | nil =>
    cases w with
    | nil => simp
    | cons c cs =>
      simp only [numStop, Bool.not_eq_true'] at hw
      simp [List.dropWhile_cons, hw]
  | cons c u ih =>
    simp only [List.cons_append, List.dropWhile_cons, hu c (by simp), if_true]
    exact ih (fun d hd => hu d (List.mem_cons_of_mem _ hd))

theorem numStart_ne {c : Char} (h : (c.isDigit || c = '-') = true) :
    c ≠ '{' ∧ c ≠ '[' ∧ c ≠ '"' ∧ c ≠ 't' ∧ c ≠ 'f' ∧ c ≠ 'n' ∧ c ≠ ']' ∧ c ≠ '}' ∧ c ≠ ',' := by
  refine ⟨?_, ?_, ?_, ?_, ?_, ?_, ?_, ?_, ?_⟩ <;> (intro he; subst he; revert h; decide)

theorem wfNum_parts {lit : String} (h : wfNum lit = true) :
    lit.data ≠ [] ∧ (∀ c ∈ lit.data, numChar c = true) ∧
      Option.all (fun c => c.isDigit || c = '-') lit.data.head? = true := by
  rw [wfNum] at h
  simp only [Bool.and_eq_true, Bool.not_eq_true', List.isEmpty_eq_false,
    List.all_eq_true] at h
  obtain ⟨⟨h1, h2⟩, h3⟩ := h
  exact ⟨h1, h2, h3⟩

theorem dumpV_length_pos (j : Json) (hw : j.wf = true) : 1 ≤ (dumpV j).length := by
  cases j with
  | null => simp [dumpV]
  | bool b => cases b <;> simp [dumpV]
  | num lit =>
    have h := (wfNum_parts (by simpa [Json.wf] using hw)).1
    simp only [dumpV]
    cases hd : lit.data with
    | nil => exact absurd hd h
    | cons c cs => simp
  | str s => simp [dumpV]
  | arr items => simp [dumpV]
  | obj fields => simp [dumpV]

theorem parseVal_brace (fuel : Nat) (rest : List Char) :
    parseVal (Nat.succ fuel) ('{' :: rest) =
      if rest.head? = some '}' then some (.obj [], rest.tail)
      else
        match parseFields fuel rest with
        | some (fs, rest2) =>
          if rest2.head? = some '}' then some (.obj fs, rest2.tail) else none
        | none => none := rfl

theorem parseVal_brack (fuel : Nat) (rest : List Char) :
    parseVal (Nat.succ fuel) ('[' :: rest) =
      if rest.head? = some ']' then some (.arr [], rest.tail)
      else
        match parseItems fuel rest with
        | some (js, rest2) =>
          if rest2.head? = some ']' then some (.arr js, rest2.tail) else none
        | none => none := rfl

theorem parseVal_quote (fuel : Nat) (rest : List Char) :
    parseVal (Nat.succ fuel) ('"' :: rest) =
      if (rest.dropWhile (fun d => d != '"')).head? = some '"' then
        some (.str ⟨rest.takeWhile (fun d => d != '"')⟩, (rest.dropWhile (fun d => d != '"')).tail)
      else none := rfl

theorem parseVal_numhead (fuel : Nat) (c : Char) (rest : List Char)
    (h : (c.isDigit || c = '-') = true) :
    parseVal (Nat.succ fuel) (c :: rest) =
      if ((c :: rest).takeWhile numChar).isEmpty then none
      else some (.num ⟨(c :: rest).takeWhile numChar⟩, (c :: rest).dropWhile numChar) := by
  obtain ⟨h1, h2, h3, h4, h5, h6, -, -, -⟩ := numStart_ne h
  simp only [parseVal]
  rw [if_neg h1, if_neg h2, if_neg h3, if_neg h4, if_neg h5, if_neg h6]

theorem parseItems_step (fuel : Nat) (cs : List Char) :
    parseItems (Nat.succ fuel) cs =
      match parseVal fuel cs with
      | some (j, rest) =>
        if rest.head? = some ',' then
          match parseItems fuel rest.tail with
          | some (js, rest2) => some (j :: js, rest2)
          | none => none
        else some ([j], rest)
      | none => none := rfl

theorem parseFields_quote (fuel : Nat) (rest : List Char) :
    parseFields (Nat.succ fuel) ('"' :: rest) =
      if (rest.dropWhile (fun d => d != '"')).head? = some '"' then
        if ((rest.dropWhile (fun d => d != '"')).tail).head? = some ':' then
          match parseVal fuel ((rest.dropWhile (fun d => d != '"')).tail).tail with
          | some (v, rest3) =>
            if rest3.head? = some ',' then
              match parseFields fuel rest3.tail with
              | some (fs, rest4) => some ((⟨rest.takeWhile (fun d => d != '"')⟩, v) :: fs, rest4)
              | none => none
            else some ([(⟨rest.takeWhile (fun d => d != '"')⟩, v)], rest3)
          | none => none
        else none
      else none := rfl

theorem dumpV_head (j : Json) (hw : j.wf = true) :
    ∃ c cs, dumpV j = c :: cs ∧
      (c = '{' ∨ c = '[' ∨ c = '"' ∨ c = 't' ∨ c = 'f' ∨ c = 'n' ∨ (c.isDigit || c = '-') = true) := by
  cases j with
  | null => exact ⟨'n', _, rfl, by tauto⟩
  | bool b =>
    cases b
    · exact ⟨'f', _, rfl, by tauto⟩
    · exact ⟨'t', _, rfl, by tauto⟩
  | num lit =>
    obtain ⟨hne, -, hhead⟩ := wfNum_parts (by simpa [Json.wf] using hw)
    cases hd : lit.data with
    | nil => exact absurd hd hne
    | cons c cs =>
      refine ⟨c, cs, by simp [dumpV, hd],
        Or.inr (Or.inr (Or.inr (Or.inr (Or.inr (Or.inr ?_)))))⟩
      rw [hd] at hhead
      simpa using hhead
  | str s => exact ⟨'"', _, rfl, by tauto⟩
  | arr items => exact ⟨'[', _, rfl, by tauto⟩
  | obj fields => exact ⟨'{', _, rfl, by tauto⟩

theorem headOpts_ne {c : Char}
    (h : c = '{' ∨ c = '[' ∨ c = '"' ∨ c = 't' ∨ c = 'f' ∨ c = 'n' ∨ (c.isDigit || c = '-') = true) :
    c ≠ ']' ∧ c ≠ '}' ∧ c ≠ ',' := by
  rcases h with rfl | rfl | rfl | rfl | rfl | rfl | h
  · exact ⟨by decide, by decide, by decide⟩
  · exact ⟨by decide, by decide, by decide⟩
  · exact ⟨by decide, by decide, by decide⟩
  · exact ⟨by decide, by decide, by decide⟩
  · exact ⟨by decide, by decide, by decide⟩
  · exact ⟨by decide, by decide, by decide⟩
  · obtain ⟨-, -, -, -, -, -, h7, h8, h9⟩ := numStart_ne h
    exact ⟨h7, h8, h9⟩

mutual
/-- Parsing a serialised well-formed document returns the document and
leaves the following text untouched, given enough fuel, whenever the
following text cannot extend a number literal. -/
theorem parse_dump : ∀ (j : Json) (rest : List Char) (fuel : Nat),
    j.wf = true → (dumpV j).length + 1 ≤ fuel → numStop rest = true →
    parseVal fuel (dumpV j ++ rest) = some (j, rest)
  | _, _, 0, _, hf, _ => by omega
  | .null, rest, Nat.succ fuel, _, _, _ => rfl
  | .bool b, rest, Nat.succ fuel, _, _, _ => by cases b <;> rfl
  | .num lit, rest, Nat.succ fuel, hw, _, hstop => by
    obtain ⟨hne, hall, hhead⟩ := wfNum_parts (by simpa [Json.wf] using hw)
    rw [show dumpV (.num lit) = lit.data from rfl]
    cases hd : lit.data with
    | nil => exact absurd hd hne
    | cons c cs =>
      rw [List.cons_append,
        parseVal_numhead fuel c (cs ++ rest) (by rw [hd] at hhead; simpa using hhead)]
      have htw : ((c :: (cs ++ rest)).takeWhile numChar) = c :: cs := by
        have h0 := takeWhile_num (c :: cs) rest (by rw [hd] at hall; exact hall) hstop
        simpa using h0
      have hdw : ((c :: (cs ++ rest)).dropWhile numChar) = rest := by
        have h0 := dropWhile_num (c :: cs) rest (by rw [hd] at hall; exact hall) hstop
        simpa using h0
      rw [htw, hdw]
      simp [← hd, strMk_data, hne]
  | .str s, rest, Nat.succ fuel, hw, _, _ => by
    have hq : ∀ c ∈ s.data, c ≠ '"' := wfStr_no_quote (by simpa [Json.wf] using hw)
    have h1 : dumpV (.str s) ++ rest = '"' :: (s.data ++ '"' :: rest) := by
      simp [dumpV]
    rw [h1, parseVal_quote, dropWhile_no_quote s.data rest hq,
      takeWhile_no_quote s.data rest hq, strMk_data]
    simp
  | .arr items, rest, Nat.succ fuel, hw, hf, hstop => by
    cases items with
    | nil => rfl
    | cons j tail =>
      have hw' : wfList (j :: tail) = true := by simpa [Json.wf] using hw
      have hwl := hw'
      simp only [wfList, Bool.and_eq_true] at hwl
      have h1 : dumpV (.arr (j :: tail)) ++ rest
          = '[' :: (dumpItems (j :: tail) ++ (']' :: rest)) := by
        simp [dumpV]
      rw [h1, parseVal_brack]
      have hhd : ¬ (dumpItems (j :: tail) ++ (']' :: rest)).head? = some ']' := by
        obtain ⟨c, cs, hdmp, hc⟩ := dumpV_head j hwl.1
        have h2 : ∃ ys, dumpItems (j :: tail) ++ (']' :: rest) = c :: ys := by
          cases tail with
          | nil => exact ⟨cs ++ (']' :: rest), by simp [dumpItems, hdmp]⟩
          | cons j2 t2 =>
            exact ⟨cs ++ ',' :: (dumpItems (j2 :: t2) ++ ']' :: rest),
              by simp [dumpItems, hdmp]⟩
        obtain ⟨ys, h2⟩ := h2
        rw [h2]
        simp only [List.head?_cons, Option.some_inj]
        exact (headOpts_ne hc).1
      rw [if_neg hhd]
      have hlen : (dumpItems (j :: tail)).length + 2 ≤ fuel := by
        have h3 : (dumpV (.arr (j :: tail))).length = (dumpItems (j :: tail)).length + 2 := by
          simp [dumpV]
        omega
      rw [parse_dumpItems (j :: tail) (']' :: rest) fuel (by simp) hw' hlen rfl rfl]
      simp
  | .obj fields, rest, Nat.succ fuel, hw, hf, hstop => by
    cases fields with
    | nil => rfl
    | cons f tail =>
      obtain ⟨k, v⟩ := f
      have hw' : wfFields ((k, v) :: tail) = true := by simpa [Json.wf] using hw
      have h1 : dumpV (.obj ((k, v) :: tail)) ++ rest
          = '{' :: (dumpFields ((k, v) :: tail) ++ ('}' :: rest)) := by
        simp [dumpV]
      rw [h1, parseVal_brace]
      have hhd : ¬ (dumpFields ((k, v) :: tail) ++ ('}' :: rest)).head? = some '}' := by
        have h2 : ∃ ys, dumpFields ((k, v) :: tail) ++ ('}' :: rest) = '"' :: ys := by
          cases tail with
          | nil => exact ⟨k.data ++ '"' :: ':' :: (dumpV v ++ '}' :: rest), by simp [dumpFields]⟩
          | cons f2 t2 =>
            exact ⟨k.data ++ '"' :: ':' :: (dumpV v ++ ',' :: (dumpFields (f2 :: t2) ++ '}' :: rest)),
              by simp [dumpFields]⟩
        obtain ⟨ys, h2⟩ := h2
        rw [h2]
        simp
      rw [if_neg hhd]
      have hlen : (dumpFields ((k, v) :: tail)).length + 2 ≤ fuel := by
        have h3 : (dumpV (.obj ((k, v) :: tail))).length
            = (dumpFields ((k, v) :: tail)).length + 2 := by
          simp [dumpV]
        omega
      rw [parse_dumpFields ((k, v) :: tail) ('}' :: rest) fuel (by simp) hw' hlen rfl rfl]
      simp

/-- Parsing serialised array items. -/
theorem parse_dumpItems : ∀ (items : List Json) (rest : List Char) (fuel : Nat),
    items ≠ [] → wfList items = true → (dumpItems items).length + 2 ≤ fuel →
    numStop rest = true → headNotComma rest = true →
    parseItems fuel (dumpItems items ++ rest) = some (items, rest)
  | _, _, 0, _, _, hf, _, _ => by omega
  | [], _, Nat.succ _, hne, _, _, _, _ => absurd rfl hne
  | [j], rest, Nat.succ fuel, _, hw, hf, hstop, hcomma => by
    have hwj : j.wf = true := by simpa [wfList] using hw
    have hflen : (dumpV j).length + 1 ≤ fuel := by
      have h0 : dumpItems [j] = dumpV j := rfl
      rw [h0] at hf
      omega
    rw [show dumpItems [j] = dumpV j from rfl, parseItems_step,
      parse_dump j rest fuel hwj hflen hstop]
    simp [headNotComma_head hcomma]
  | j :: j2 :: tail, rest, Nat.succ fuel, _, hw, hf, hstop, hcomma => by
    have hwl := hw
    simp only [wfList, Bool.and_eq_true] at hwl
    obtain ⟨hwj, hwj2, hwr⟩ := hwl
    have hwt : wfList (j2 :: tail) = true := by
      simp only [wfList, Bool.and_eq_true]
      exact ⟨hwj2, hwr⟩
    have h1 : dumpItems (j :: j2 :: tail) ++ rest
        = dumpV j ++ (',' :: (dumpItems (j2 :: tail) ++ rest)) := by
      simp [dumpItems]
    have hlen : (dumpItems (j :: j2 :: tail)).length
        = (dumpV j).length + 1 + (dumpItems (j2 :: tail)).length := by
      simp [dumpItems]
      omega
    have hj1 : 1 ≤ (dumpV j).length := dumpV_length_pos j hwj
    rw [h1, parseItems_step,
      parse_dump j (',' :: (dumpItems (j2 :: tail) ++ rest)) fuel hwj (by omega) rfl]
    simp [parse_dumpItems (j2 :: tail) rest fuel (by simp) hwt (by omega) hstop hcomma]

/-- Parsing serialised object fields. -/
theorem parse_dumpFields : ∀ (fields : List (String × Json)) (rest : List Char) (fuel : Nat),
    fields ≠ [] → wfFields fields = true → (dumpFields fields).length + 2 ≤ fuel →
    numStop rest = true → headNotComma rest = true →
    parseFields fuel (dumpFields fields ++ rest) = some (fields, rest)
  | _, _, 0, _, _, hf, _, _ => by omega
  | [], _, Nat.succ _, hne, _, _, _, _ => absurd rfl hne
  | [(k, v)], rest, Nat.succ fuel, _, hw, hf, hstop, hcomma => by
    have hwl := hw
    simp only [wfFields, Bool.and_eq_true] at hwl
    obtain ⟨⟨hwk, hwv⟩, -⟩ := hwl
    have hq : ∀ c ∈ k.data, c ≠ '"' := wfStr_no_quote hwk
    have h1 : dumpFields [(k, v)] ++ rest
        = '"' :: (k.data ++ '"' :: (':' :: (dumpV v ++ rest))) := by
      simp [dumpFields]
    have hflen : (dumpV v).length + 1 ≤ fuel := by
      have h0 : (dumpFields [(k, v)]).length = k.data.length + 3 + (dumpV v).length := by
        simp [dumpFields]
        omega
      omega
    rw [h1, parseFields_quote, dropWhile_no_quote k.data _ hq,
      takeWhile_no_quote k.data _ hq, strMk_data]
    simp only [List.head?_cons, List.tail_cons, if_true]
    rw [parse_dump v rest fuel hwv hflen hstop]
    simp [headNotComma_head hcomma]
  | (k, v) :: (k2, v2) :: tail, rest, Nat.succ fuel, _, hw, hf, hstop, hcomma => by
    have hwl := hw
    simp only [wfFields, Bool.and_eq_true] at hwl
    obtain ⟨⟨hwk, hwv⟩, ⟨hwk2, hwv2⟩, hwr⟩ := hwl
    have hwt : wfFields ((k2, v2) :: tail) = true := by
      simp only [wfFields, Bool.and_eq_true]
      exact ⟨⟨hwk2, hwv2⟩, hwr⟩
    have hq : ∀ c ∈ k.data, c ≠ '"' := wfStr_no_quote hwk
    have h1 : dumpFields ((k, v) :: (k2, v2) :: tail) ++ rest
        = '"' :: (k.data ++ '"' :: (':' :: (dumpV v ++ (',' :: (dumpFields ((k2, v2) :: tail) ++ rest))))) := by
      simp [dumpFields]
    have hlen : (dumpFields ((k, v) :: (k2, v2) :: tail)).length
        = k.data.length + 3 + (dumpV v).length + 1 + (dumpFields ((k2, v2) :: tail)).length := by
      simp [dumpFields]
      omega
    have hv1 : 1 ≤ (dumpV v).length := dumpV_length_pos v hwv
    rw [h1, parseFields_quote, dropWhile_no_quote k.data _ hq,
      takeWhile_no_quote k.data _ hq, strMk_data]
    simp only [List.head?_cons, List.tail_cons, if_true]
    rw [parse_dump v (',' :: (dumpFields ((k2, v2) :: tail) ++ rest)) fuel hwv (by omega) rfl]
    simp [parse_dumpFields ((k2, v2) :: tail) rest fuel (by simp) hwt (by omega) hstop hcomma]
end

theorem digitChar_isDigit (n : Nat) : (digitChar n).isDigit = true := by
  have h : n % 10 < 10 := Nat.mod_lt _ (by omega)
  rw [digitChar]
  interval_cases h2 : n % 10 <;> decide

theorem natDigitsGo_digits (fuel n : Nat) : ∀ c ∈ natDigitsGo fuel n, c.isDigit = true := by
  induction fuel generalizing n with
  | zero => simp [natDigitsGo]
  | succ fuel ih =>
    intro c hc
    rw [natDigitsGo] at hc
    by_cases h : n < 10
    · rw [if_pos h] at hc
      simp only [List.mem_singleton] at hc
      subst hc
      exact digitChar_isDigit n
    · rw [if_neg h] at hc
      rcases List.mem_append.mp hc with h2 | h2
      · exact ih (n / 10) c h2
      · simp only [List.mem_singleton] at h2
        subst h2
        exact digitChar_isDigit (n % 10)

theorem natDigits_ne_nil (n : Nat) : natDigits n ≠ [] := by
  rw [natDigits, natDigitsGo]
  by_cases h : n < 10
  · simp [if_pos h]
  · simp [if_neg h]

theorem digit_numChar {c : Char} (h : c.isDigit = true) : numChar c = true := by
  simp [numChar, h]

theorem intAsStr_wfNum (n : Int) (h : 1 ≤ n) : wfNum (intAsStr n) = true := by
  rw [intAsStr, if_neg (by omega)]
  have hdig := natDigitsGo_digits (n.toNat + 1) n.toNat
  rw [wfNum]
  simp only [Bool.and_eq_true, Bool.not_eq_true', List.isEmpty_eq_false, List.all_eq_true]
  refine ⟨⟨natDigits_ne_nil n.toNat, ?_⟩, ?_⟩
  · intro c hc
    exact digit_numChar (hdig c hc)
  · cases hd : natDigits n.toNat with
    | nil => exact absurd hd (natDigits_ne_nil n.toNat)
    | cons c cs =>
      have : c.isDigit = true := hdig c (by rw [natDigits] at hd; rw [hd]; simp)
      simp [this]

theorem intAsStr_no_quote (n : Int) (h : 1 ≤ n) : ∀ c ∈ (intAsStr n).data, c ≠ '"' :=
  wfNum_no_quote (intAsStr_wfNum n h)

mutual
/-- Sentinel substitution preserves well-formedness when the inserted
number literal is well-formed. -/
theorem substGS_wf (r : String) (hr : wfNum r = true) :
    ∀ (t : Json), t.wf = true → (substGS r t).wf = true
  | .null, _ => rfl
  | .bool _, _ => rfl
  | .num lit, hw => hw
  | .str s, hw => by
    rw [substGS]
    by_cases hs : s = sentinel
    · rw [if_pos hs]
      simpa [Json.wf] using hr
    · rw [if_neg hs]
      exact hw
  | .arr items, hw => by
    rw [substGS]
    simpa [Json.wf] using substGSList_wf r hr items (by simpa [Json.wf] using hw)
  | .obj fields, hw => by
    rw [substGS]
    simpa [Json.wf] using substGSFields_wf r hr fields (by simpa [Json.wf] using hw)

/-- Sentinel substitution preserves well-formedness of item lists. -/
theorem substGSList_wf (r : String) (hr : wfNum r = true) :
    ∀ (items : List Json), wfList items = true → wfList (substGSList r items) = true
  | [], _ => rfl
  | j :: rest, hw => by
    simp only [wfList, Bool.and_eq_true] at hw
    rw [substGSList]
    simp only [wfList, Bool.and_eq_true]
    exact ⟨substGS_wf r hr j hw.1, substGSList_wf r hr rest hw.2⟩

/-- Sentinel substitution preserves well-formedness of field lists. -/
theorem substGSFields_wf (r : String) (hr : wfNum r = true) :
    ∀ (fields : List (String × Json)), wfFields fields = true →
      wfFields (substGSFields r fields) = true
  | [], _ => rfl
  | (k, v) :: rest, hw => by
    simp only [wfFields, Bool.and_eq_true] at hw
    rw [substGSFields]
    simp only [wfFields, Bool.and_eq_true]
    exact ⟨⟨hw.1.1, substGS_wf r hr v hw.1.2⟩, substGSFields_wf r hr rest hw.2⟩
end

/-- Parsing the serialisation of a well-formed document recovers it. -/
theorem loads_dumps (j : Json) (hw : j.wf = true) : Json.loads j.dumps = some j := by
  have h := parse_dump j [] ((dumpV j).length + 1) hw (by omega) rfl
  rw [List.append_nil] at h
  rw [Json.loads]
  show (match parseVal ((dumpV j).length + 1) (dumpV j) with
        | some (j, []) => some j
        | _ => none) = some j
  rw [h]

/-- Core equivalence: for a well-formed template whose keys never equal
the sentinel, the serialise/replace/reparse pipeline of the source
computes exactly the typed tree substitution. -/
theorem generate_schema_eq_subst (t : Json) (n : Int) (h1 : 1 ≤ n) (hw : t.wf = true)
    (hk : noSentKeys t = true) :
    generate_schema t n = Except.ok (substGroupSize n t) := by
  rw [generate_schema, if_neg (by omega)]
  have hrepl : strReplace t.dumps quotedSentinel (intAsStr n) = (substGS (intAsStr n) t).dumps := by
    show (⟨replaceL quotedSentinel.data (intAsStr n).data (dumpV t)⟩ : String) = _
    have h := replDump (intAsStr n) t [] hw hk rfl
    rw [List.append_nil] at h
    rw [show replaceL QS (intAsStr n).data [] = [] from rfl, List.append_nil] at h
    rw [show (QS : List Char) = quotedSentinel.data from rfl] at h
    rw [h]
    rfl
  have hwsub : (substGS (intAsStr n) t).wf = true :=
    substGS_wf (intAsStr n) (intAsStr_wfNum n h1) t hw
  show (match Json.loads (strReplace t.dumps quotedSentinel (intAsStr n)) with
        | some j => Except.ok j
        | none => Except.error ("Invalid JSON in generated schema")) = Except.ok (substGroupSize n t)
  rw [hrepl, loads_dumps (substGS (intAsStr n) t) hwsub]
  rfl

/-- An apostrophe, built from its code point so that source messages can
quote names the way the Python code does. -/
def apos : String := String.singleton (Char.ofNat 39)

/-- Numeric value of a list of decimal digit characters. -/
def digitsToNat? : List Char → Option Nat
  | [] => none
  | cs => cs.foldl (fun acc c => match acc with
      | some n => if c.isDigit then some (n * 10 + (c.toNat - 48)) else none
      | none => none) (some 0)

/-- Numeric value of a number literal when it is a plain natural
number. -/
def litToNat? (lit : String) : Option Nat := digitsToNat? lit.data

/-- Join path segments with dots for error formatting. -/
def joinDot : List String → String
  | [] => ""
  | [s] => s
  | s :: rest => s ++ "." ++ joinDot rest

/-- First-match lookup in an object field list, the model of indexing a
Python dict parsed from JSON. -/
def jlookup (k : String) : List (String × Json) → Option Json
  | [] => none
  | (k2, v) :: rest => if k2 = k then some v else jlookup k rest

/-- Key lookup on a JSON value: indexing a mapping; any other value
raises `TypeError` in Python, modelled as `none` at call sites that
translate the exception. -/
def Json.getKey (j : Json) (k : String) : Option Json :=
  match j with
  | .obj fields => jlookup k fields
  | _ => none

/-- Faithful translation of `SchemaValidator._extract_group_size`
(schema_validator.py lines 116-137): read
`config["population_params"]["G_labels"]`; a `KeyError` becomes the
missing-field message, a `TypeError` (indexing a non-mapping) becomes
the invalid-structure message, and a value that is not a non-empty list
fails with the explicit message. -/
def extract_group_size (config : Json) : Except String Int :=
  match config with
  | .obj fields =>
    match jlookup ("population_params") fields with
    | none => .error ("Missing required field: population_params.G_labels")
    | some (.obj fields2) =>
      (match jlookup ("G_labels") fields2 with
       | none => .error ("Missing required field: population_params.G_labels")
       | some (.arr l) =>
         if l.length < 1 then .error ("G_labels must be a non-empty list")
         else .ok (l.length : Int)
       | some _ => .error ("G_labels must be a non-empty list"))
    | some _ => .error ("Invalid configuration structure")
  | _ => .error ("Invalid configuration structure")

/-- A schema-validation error: the absolute path of the offending value
and a human-readable message, mirroring `jsonschema.ValidationError`. -/
abbrev VErr : Type := List String × String

/-- Faithful translation of `SchemaValidator._format_validation_error`
(lines 139-153). -/
def format_validation_error (e : VErr) : String :=
  match e.1 with
  | [] => "Validation error: " ++ e.2
  | ps => "Validation error at " ++ apos ++ joinDot ps ++ apos ++ ": " ++ e.2

/-- Does the instance match a JSON-Schema `type` name? -/
def typeMatches (tname : String) (inst : Json) : Bool :=
  match inst with
  | .obj _ => tname = "object"
  | .arr _ => tname = "array"
  | .str _ => tname = "string"
  | .bool _ => tname = "boolean"
  | .num _ => tname = "number" || tname = "integer"
  | .null => tname = "null"

/-- Keys of an object field list. -/
def fieldKeys (fields : List (String × Json)) : List String := fields.map (fun kv => kv.1)

/-- Keys declared under the sibling `properties` keyword, needed by
`additionalProperties`. -/
def propsKeys (sfields : List (String × Json)) : List String :=
  match jlookup ("properties") sfields with
  | some (.obj props) => fieldKeys props
  | _ => []

/-- One violation for each `required` property missing from the
instance. -/
def requiredErrors (reqs : List Json) (ifields : List (String × Json))
    (path : List String) : List VErr :=
  match reqs with
  | [] => []
  | .str rk :: rest =>
    (if (jlookup rk ifields).isSome then []
     else [(path, apos ++ rk ++ apos ++ " is a required property")])
      ++ requiredErrors rest ifields path
  | _ :: rest => requiredErrors rest ifields path

/-- Violations of `additionalProperties: false`: one per instance key
not declared under `properties`. -/
def addlPropErrors (pk : List String) (ifields : List (String × Json))
    (path : List String) : List VErr :=
  (fieldKeys ifields).filterMap (fun ik =>
    if ik ∈ pk then none
    else some (path, "Additional properties are not allowed (" ++ apos ++ ik ++ apos ++ " was unexpected)"))

mutual
/-- Modelled from the spec: the external `jsonschema` library is not
code of this repository; the spec describes its role as checking a
configuration against the generated schema with standard JSON-Schema
semantics (type checking, required-field checking, array length bounds,
`additionalProperties: false` enforcement).  This checker implements the
keywords the modelled template uses — `type`, `required`, `properties`,
`additionalProperties: false`, `minItems`, `maxItems` — iterating the
schema keywords in document order and yielding all violations, as
`iter_errors` does; `jsonschema.validate` raises the first of them. -/
def schemaErrors (schema inst : Json) (path : List String) : List VErr :=
  match schema with
  | .obj sfields => keywordErrors sfields inst path (propsKeys sfields)
  | _ => []

/-- Violations contributed by each schema keyword, in schema order. -/
def keywordErrors : List (String × Json) → Json → List String → List String → List VErr
  | [], _, _, _ => []
  | (kw, sval) :: rest, inst, path, pk =>
    (if kw = "type" then
      match sval with
      | .str tname =>
        if typeMatches tname inst then []
        else [(path, "is not of type " ++ apos ++ tname ++ apos)]
      | _ => []
    else if kw = "required" then
      match sval, inst with
      | .arr reqs, .obj ifields => requiredErrors reqs ifields path
      | _, _ => []
    else if kw = "properties" then
      match sval, inst with
      | .obj props, .obj ifields => propErrors props ifields path
      | _, _ => []
    else if kw = "additionalProperties" then
      match sval, inst with
      | .bool false, .obj ifields => addlPropErrors pk ifields path
      | _, _ => []
    else if kw = "minItems" then
      match sval, inst with
      | .num lit, .arr items =>
        (match litToNat? lit with
         | some m => if items.length < m then [(path, "is too short")] else []
         | none => [])
      | _, _ => []
    else if kw = "maxItems" then
      match sval, inst with
      | .num lit, .arr items =>
        (match litToNat? lit with
         | some m => if m < items.length then [(path, "is too long")] else []
         | none => [])
      | _, _ => []
    else []) ++ keywordErrors rest inst path pk

/-- Recursive check of each declared property that is present in the
instance. -/
def propErrors (props : List (String × Json)) (ifields : List (String × Json))
    (path : List String) : List VErr :=
  match props with
  | [] => []
  | (pkey, subschema) :: rest =>
    (match jlookup pkey ifields with
     | some iv => schemaErrors subschema iv (path ++ [pkey])
     | none => []) ++ propErrors rest ifields path
end


/-- A Python exception inside the `try` block of `validate`. -/
inductive PyExc where
  | validationError (e : VErr)
  | exc (msg : String)

/-- The `try`-block body of `SchemaValidator.validate` (lines 89-100):
extract the group size, generate the schema, run `jsonschema.validate`
(which raises the first violation).  `Except.error` is a raised
exception. -/
def validateTryBody (schema_template config : Json) : Except PyExc (List String) :=
  match extract_group_size config with
  | .error e => .error (.exc e)
  | .ok gs =>
    match generate_schema schema_template gs with
    | .error e => .error (.exc e)
    | .ok schema =>
      match (schemaErrors schema config []).head? with
      | some e => .error (.validationError e)
      | none => .ok []

/-- Faithful translation of `SchemaValidator.validate` (lines 76-114):
run the try block; `except ValidationError` appends the one formatted
message, the blanket `except Exception` appends a
`"Schema validation error: ..."` message.  The outer `Except String`
models an exception escaping `validate`; every branch of the
translation returns `Except.ok`, because the two handlers catch
everything the body can raise. -/
def validate (schema_template config : Json) : Except String (List String) :=
  match validateTryBody schema_template config with
  | .ok errors => .ok errors
  | .error (.validationError e) => .ok [format_validation_error e]
  | .error (.exc msg) => .ok ["Schema validation error: " ++ msg]

/-- The state a `SchemaValidator` instance holds after construction: the
loaded schema template (the file-system load itself is out of scope). -/
structure SchemaValidator where
  schema_template : Json

/-- Method form of `generate_schema`: result plus the state of the
validator after the call (the source reads `self.schema_template` and
assigns nothing to `self`). -/
def SchemaValidator.generate_schema (v : SchemaValidator) (group_size : Int) :
    (Except String Json) × SchemaValidator :=
  (EpiSimVer.generate_schema v.schema_template group_size, v)

/-- Method form of `validate`: result plus the state of the validator
after the call. -/
def SchemaValidator.validate (v : SchemaValidator) (config : Json) :
    (Except String (List String)) × SchemaValidator :=
  (EpiSimVer.validate v.schema_template config, v)

/-- A call made to a `SchemaValidator` instance. -/
inductive VCall where
  | gen (group_size : Int)
  | val (config : Json)

/-- The validator state after a sequence of method calls. -/
def runCalls (v : SchemaValidator) : List VCall → SchemaValidator
  | [] => v
  | .gen n :: rest => runCalls (v.generate_schema n).2 rest
  | .val c :: rest => runCalls (v.validate c).2 rest

/-- Dotted-path descent through nested JSON objects: resolves to the
leaf value or fails when a segment is absent or the value on the way is
not a mapping. -/
def Json.getPath : Json → List String → Option Json
  | j, [] => some j
  | .obj fields, k :: ks => (jlookup k fields).bind (fun v => v.getPath ks)
  | _, _ :: _ => none

/-- Does `pat` occur as a contiguous run inside the list? -/
def hasInfix (pat : List Char) : List Char → Bool
  | [] => pat.isEmpty
  | c :: cs => pat.isPrefixOf (c :: cs) || hasInfix pat cs

/-- A string in which the sentinel is isolated: it is either exactly
the sentinel, or the sentinel does not occur inside it at all. -/
def strIsolated (s : String) : Bool :=
  s = sentinel || !(hasInfix sentinel.data s.data)

mutual
/-- The claim's proviso on a template: the sentinel occurs only as a
complete string value, never inside another string value and never
inside an object key. -/
def sentinelIsolated : Json → Bool
  | .str s => strIsolated s
  | .arr items => sentinelIsolatedList items
  | .obj fields => sentinelIsolatedFields fields
  | _ => true

/-- Sentinel isolation for item lists. -/
def sentinelIsolatedList : List Json → Bool
  | [] => true
  | j :: rest => sentinelIsolated j && sentinelIsolatedList rest

/-- Sentinel isolation for field lists: keys must not contain the
sentinel at all. -/
def sentinelIsolatedFields : List (String × Json) → Bool
  | [] => true
  | (k, v) :: rest =>
    (!(hasInfix sentinel.data k.data)) && sentinelIsolated v && sentinelIsolatedFields rest
end

theorem hasInfix_self (pat : List Char) (h : pat ≠ []) : hasInfix pat pat = true := by
  cases pat with
  | nil => exact absurd rfl h
  | cons c cs =>
    rw [hasInfix]
    have : (c :: cs).isPrefixOf (c :: cs) = true := by
      rw [List.isPrefixOf_iff_prefix]
    simp [this]

mutual
/-- Sentinel isolation implies that no key equals the sentinel. -/
theorem sentinelIsolated_keys : ∀ (t : Json), sentinelIsolated t = true → noSentKeys t = true
  | .null, _ => rfl
  | .bool _, _ => rfl
  | .num _, _ => rfl
  | .str _, _ => rfl
  | .arr items, h => by
    rw [noSentKeys]
    exact sentinelIsolatedList_keys items (by simpa [sentinelIsolated] using h)
  | .obj fields, h => by
    rw [noSentKeys]
    exact sentinelIsolatedFields_keys fields (by simpa [sentinelIsolated] using h)

/-- List version of `sentinelIsolated_keys`. -/
theorem sentinelIsolatedList_keys : ∀ (items : List Json),
    sentinelIsolatedList items = true → noSentKeysList items = true
  | [], _ => rfl
  | j :: rest, h => by
    simp only [sentinelIsolatedList, Bool.and_eq_true] at h
    rw [noSentKeysList]
    simp only [Bool.and_eq_true]
    exact ⟨sentinelIsolated_keys j h.1, sentinelIsolatedList_keys rest h.2⟩

/-- Field version of `sentinelIsolated_keys`. -/
theorem sentinelIsolatedFields_keys : ∀ (fields : List (String × Json)),
    sentinelIsolatedFields fields = true → noSentKeysFields fields = true
  | [], _ => rfl
  | (k, v) :: rest, h => by
    simp only [sentinelIsolatedFields, Bool.and_eq_true, Bool.not_eq_true'] at h
    rw [noSentKeysFields]
    simp only [Bool.and_eq_true, bne_iff_ne, ne_eq]
    refine ⟨⟨?_, sentinelIsolated_keys v h.1.2⟩, sentinelIsolatedFields_keys rest h.2⟩
    intro he
    subst he
    rw [hasInfix_self sentinel.data (by decide)] at h
    exact absurd h.1.1 (by simp)
end

/-- Substitution commutes with path lookup: looking into the
substituted tree is looking into the original and substituting. -/
theorem getPath_subst (r : String) : ∀ (p : List String) (t : Json),
    (substGS r t).getPath p = (t.getPath p).map (substGS r) := by
  intro p
  induction p with
  | nil =>
    intro t
    simp [Json.getPath]
  | cons k ks ih =>
    intro t
    cases t with
    | null => rfl
    | bool b => rfl
    | num lit => rfl
    | str s =>
      rw [substGS]
      by_cases hs : s = sentinel
      · rw [if_pos hs]
        rfl
      · rw [if_neg hs]
        rfl
    | arr items => rfl
    | obj fields =>
      rw [substGS]
      have hl : jlookup k (substGSFields r fields) = (jlookup k fields).map (substGS r) := by
        induction fields with
        | nil => rfl
        | cons f rest ihf =>
          obtain ⟨k2, v2⟩ := f
          rw [substGSFields, jlookup, jlookup]
          by_cases hk : k2 = k
          · rw [if_pos hk, if_pos hk]
            rfl
          · rw [if_neg hk, if_neg hk]
            exact ihf
      show (jlookup k (substGSFields r fields)).bind (fun v => v.getPath ks)
          = Option.map (substGS r) ((jlookup k fields).bind (fun v => v.getPath ks))
      rw [hl]
      cases jlookup k fields with
      | none => rfl
      | some v => exact ih v

/-- Modelled from the spec: the schema template file
(`episim_schema_template.json`) is data of the repository that is not
under src/.  Its shape follows the spec's description of the
configuration format (sections `simulation`, `data`, `epidemic_params`,
`population_params`, `NPI`; group-dependent array fields carry the
sentinel as their `minItems`/`maxItems` bounds) and the fields the test
suite exercises. -/
def episim_schema_template : Json := .obj [
  ("type", .str "object"),
  ("required", .arr [.str "simulation", .str "data", .str "epidemic_params", .str "population_params"]),
  ("additionalProperties", .bool false),
  ("properties", .obj [
    ("simulation", .obj [
      ("type", .str "object"),
      ("required", .arr [.str "engine", .str "start_date", .str "end_date"]),
      ("properties", .obj [
        ("engine", .obj [("type", .str "string")]),
        ("start_date", .obj [("type", .str "string")]),
        ("end_date", .obj [("type", .str "string")]),
        ("save_full_output", .obj [("type", .str "boolean")]),
        ("output_format", .obj [("type", .str "string")])])]),
    ("data", .obj [("type", .str "object")]),
    ("epidemic_params", .obj [
      ("type", .str "object"),
      ("properties", .obj [
        ("βᴵ", .obj [("type", .str "number")]),
        ("βᴬ", .obj [("type", .str "number")]),
        ("ηᵍ", .obj [("type", .str "array"),
          ("minItems", .str "{GROUP_SIZE}"), ("maxItems", .str "{GROUP_SIZE}")]),
        ("αᵍ", .obj [("type", .str "array"),
          ("minItems", .str "{GROUP_SIZE}"), ("maxItems", .str "{GROUP_SIZE}")]),
        ("μᵍ", .obj [("type", .str "array"),
          ("minItems", .str "{GROUP_SIZE}"), ("maxItems", .str "{GROUP_SIZE}")])])]),
    ("population_params", .obj [
      ("type", .str "object"),
      ("required", .arr [.str "G_labels"]),
      ("properties", .obj [
        ("G_labels", .obj [("type", .str "array"),
          ("minItems", .str "{GROUP_SIZE}"), ("maxItems", .str "{GROUP_SIZE}")]),
        ("C", .obj [("type", .str "array")]),
        ("kᵍ", .obj [("type", .str "array"),
          ("minItems", .str "{GROUP_SIZE}"), ("maxItems", .str "{GROUP_SIZE}")]),
        ("kᵍ_h", .obj [("type", .str "array")]),
        ("kᵍ_w", .obj [("type", .str "array")]),
        ("pᵍ", .obj [("type", .str "array")]),
        ("ξ", .obj [("type", .str "number")]),
        ("σ", .obj [("type", .str "number")])])]),
    ("NPI", .obj [
      ("type", .str "object"),
      ("properties", .obj [
        ("κ₀s", .obj [("type", .str "array")]),
        ("ϕs", .obj [("type", .str "array")]),
        ("δs", .obj [("type", .str "array")]),
        ("tᶜs", .obj [("type", .str "array")]),
        ("are_there_npi", .obj [("type", .str "boolean")])])])])]

/-- C1: for every integer N ≥ 1, `generate_schema` applied to the
loaded schema template returns a schema in which every group-array
length bound — every position where the template holds the sentinel
string, which is exactly the `minItems`/`maxItems` of group-dependent
array fields — equals the integer N; and for every N < 1 it fails with
the invalid-group-size error. -/
theorem claim_C1 (N : Int) :
    (1 ≤ N → ∃ s, generate_schema episim_schema_template N = Except.ok s ∧
      ∀ p, episim_schema_template.getPath p = some (Json.str sentinel) →
        s.getPath p = some (Json.num (intAsStr N))) ∧
    (N < 1 → generate_schema episim_schema_template N
        = Except.error ("Group size must be at least 1")) := by
  constructor
  · intro h
    refine ⟨substGroupSize N episim_schema_template,
      generate_schema_eq_subst episim_schema_template N h rfl rfl, ?_⟩
    intro p hp
    rw [substGroupSize, getPath_subst, hp]
    simp [substGS]
  · intro h
    rw [generate_schema, if_pos (by omega)]

/-- Witness for C1 at N = 2 and N = 0, with a concrete sentinel path of
the template. -/
theorem claim_C1_witness :
    episim_schema_template.getPath
        ["properties", "epidemic_params", "properties", "ηᵍ", "minItems"]
      = some (Json.str sentinel) ∧
    (∃ s, generate_schema episim_schema_template 2 = Except.ok s ∧
      ∀ p, episim_schema_template.getPath p = some (Json.str sentinel) →
        s.getPath p = some (Json.num (intAsStr 2))) ∧
    generate_schema episim_schema_template 0
      = Except.error ("Group size must be at least 1") :=
  ⟨rfl, (claim_C1 2).1 (by norm_num), (claim_C1 0).2 (by norm_num)⟩

/-- C8: the whole-structure text substitution performed by
`generate_schema` — serialise the template, replace each quoted
sentinel, reparse — produces the same schema as the typed tree
transformation `substGroupSize` that walks the parsed template and
replaces every string value equal to the sentinel by the integer N,
provided the document is well-formed and the sentinel occurs only as a
complete string value and nowhere else in the document. -/
theorem claim_C8 (t : Json) (N : Int) (h1 : 1 ≤ N) (hw : t.wf = true)
    (hiso : sentinelIsolated t = true) :
    generate_schema t N = Except.ok (substGroupSize N t) :=
  generate_schema_eq_subst t N h1 hw (sentinelIsolated_keys t hiso)

/-- Witness for C8: the modelled template at N = 2. -/
theorem claim_C8_witness :
    (1 : Int) ≤ 2 ∧ Json.wf episim_schema_template = true ∧
    sentinelIsolated episim_schema_template = true ∧
    generate_schema episim_schema_template 2
      = Except.ok (substGroupSize 2 episim_schema_template) :=
  ⟨by norm_num, rfl, rfl, claim_C8 episim_schema_template 2 (by norm_num) rfl rfl⟩

/-- C9: `generate_schema` and `validate` leave the stored schema
template unchanged, and any two calls with the same argument return
equal results regardless of intervening calls with other group sizes or
configurations. -/
theorem claim_C9 (v : SchemaValidator) (calls : List VCall) (n : Int) (c : Json) :
    (v.generate_schema n).2 = v ∧ (v.validate c).2 = v ∧
    runCalls v calls = v ∧
    ((runCalls v calls).generate_schema n).1 = (v.generate_schema n).1 ∧
    ((runCalls v calls).validate c).1 = (v.validate c).1 := by
  have hrun : ∀ (w : SchemaValidator) (cs : List VCall), runCalls w cs = w := by
    intro w cs
    induction cs with
    | nil => rfl
    | cons call rest ih =>
      cases call with
      | gen m => exact ih
      | val cfg => exact ih
  refine ⟨rfl, rfl, hrun v calls, ?_, ?_⟩
  · rw [hrun v calls]
  · rw [hrun v calls]

theorem extract_group_size_pos {config : Json} {gs : Int}
    (h : extract_group_size config = Except.ok gs) : 1 ≤ gs := by
  unfold extract_group_size at h
  repeat' split at h
  all_goals (try simp_all)
  all_goals
    obtain ⟨a, t, rfl⟩ := List.exists_cons_of_ne_nil (by assumption)
    simp only [List.length_cons] at h
    omega

theorem tryBody_ok {tmpl config : Json} {l : List String}
    (h : validateTryBody tmpl config = Except.ok l) : l = [] := by
  unfold validateTryBody at h
  repeat' split at h
  all_goals simp_all

/-- C2 (amended): `validate` always returns a list of error strings —
it never raises, not even for structural problems in extracting the
group size, which the blanket `except Exception` catches and reports as
a list entry — and the list is empty exactly when the configuration is
valid (the group size extracts and the generated schema reports no
violation). -/
theorem claim_C2 (config : Json) :
    ∃ l, validate episim_schema_template config = Except.ok l ∧
      (l = [] ↔ ∃ gs, extract_group_size config = Except.ok gs ∧
        schemaErrors (substGroupSize gs episim_schema_template) config [] = []) := by
  cases hx : extract_group_size config with
  | error e =>
    have hb : validateTryBody episim_schema_template config = .error (.exc e) := by
      simp only [validateTryBody, hx]
    refine ⟨["Schema validation error: " ++ e], by rw [validate, hb], ?_⟩
    simp [hx]
  | ok gs =>
    have hpos : 1 ≤ gs := extract_group_size_pos hx
    have hgen := generate_schema_eq_subst episim_schema_template gs hpos rfl rfl
    cases hs : (schemaErrors (substGroupSize gs episim_schema_template) config []).head? with
    | none =>
      have hb : validateTryBody episim_schema_template config = .ok [] := by
        simp only [validateTryBody, hx, hgen, hs]
      refine ⟨[], by rw [validate, hb], ?_⟩
      simp only [true_iff]
      exact ⟨gs, rfl, by rwa [List.head?_eq_none_iff] at hs⟩
    | some e =>
      have hb : validateTryBody episim_schema_template config
          = .error (.validationError e) := by
        simp only [validateTryBody, hx, hgen, hs]
      refine ⟨[format_validation_error e], by rw [validate, hb], ?_⟩
      constructor
      · intro hcon
        exact absurd hcon (by simp)
      · rintro ⟨gs2, hgs2, herrs⟩
        obtain rfl : gs2 = gs := (Except.ok.inj hgs2).symm
        rw [herrs] at hs
        exact absurd hs (by simp)

/-- Counterexample to C2 as stated: on a configuration whose group size
cannot be extracted (no `population_params` at all), `validate` does not
raise — the extraction error is caught by the blanket handler and
returned as an entry of the list. -/
theorem claim_C2_counterexample :
    extract_group_size (Json.obj [])
      = Except.error ("Missing required field: population_params.G_labels") ∧
    validate episim_schema_template (Json.obj [])
      = Except.ok ["Schema validation error: Missing required field: population_params.G_labels"] :=
  ⟨rfl, rfl⟩

/-- C3 (amended): the list returned by `validate` contains at most one
entry — `jsonschema.validate` raises only the first violation it finds
and the handler appends that single message — so multiple violations
are not all collected. -/
theorem claim_C3 (config : Json) :
    ∃ l, validate episim_schema_template config = Except.ok l ∧ l.length ≤ 1 := by
  rw [validate]
  cases hb : validateTryBody episim_schema_template config with
  | ok l =>
    refine ⟨l, rfl, ?_⟩
    rw [tryBody_ok hb]
    simp
  | error e =>
    cases e with
    | validationError ve => exact ⟨[format_validation_error ve], rfl, by simp⟩
    | exc m => exact ⟨["Schema validation error: " ++ m], rfl, by simp⟩

/-- A configuration with a valid group-labels list but two schema
violations: both required sections `simulation` and `data` are
missing. -/
def twoViolationConfig : Json := .obj [
  ("epidemic_params", .obj []),
  ("population_params", .obj [("G_labels", .arr [.str "Y", .str "M", .str "O"])])]

set_option maxRecDepth 200000 in
/-- Counterexample to C3 as stated: this configuration violates the
generated schema twice, yet `validate` returns a single-entry list
holding only the first violation. -/
theorem claim_C3_counterexample :
    (schemaErrors (substGroupSize 3 episim_schema_template) twoViolationConfig []).length = 2 ∧
    validate episim_schema_template twoViolationConfig
      = Except.ok ["Validation error: "
          ++ (apos ++ "simulation" ++ apos ++ " is a required property")] :=
  ⟨rfl, rfl⟩

/-- Faithful translation of `date_addition` (py_interface/EpiSim.py
lines 152-156).  A calendar date is modelled by its day number (e.g.
its rata-die index): `pd.to_datetime` parses a `YYYY-MM-DD` string to
such a day, adding a `pd.Timedelta` of N days adds N to it, and
`strftime` renders it back; the embedding works with the day numbers
directly. -/
def date_addition (start_date length_days : Int) : Int :=
  start_date + length_days

/-- What one `MMCACovid19.step` call does, as data: the start and end
dates passed to `run_model`, the day of the model-state file recorded
afterwards, and the returned next start date. -/
structure StepResult where
  run_start : Int
  run_end : Int
  model_state_day : Int
  next_date : Int

/-- Faithful translation of `MMCACovid19.step` (py_interface/EpiSim.py
lines 63-84): the run covers `start_date` to
`date_addition start_date (length_days - 1)` inclusive, the model state
is stored under the end date, and the returned next start date is one
day past the end date. -/
def MMCACovid19.step (start_date length_days : Int) : StepResult :=
  let end_date := date_addition start_date (length_days - 1)
  { run_start := start_date
    run_end := end_date
    model_state_day := end_date
    next_date := date_addition end_date 1 }

/-- The inclusive window of days a `step` call covers. -/
def stepWindow (d L : Int) : Finset Int :=
  Finset.Icc (MMCACovid19.step d L).run_start (MMCACovid19.step d L).run_end

/-- C10: `step(d, L)` runs the simulator over the inclusive window
`[d, d + (L-1)]` and returns `d + L` as the next start date, so feeding
the returned date into a following `step` of any length M ≥ 1 covers
consecutive, non-overlapping, gap-free windows. -/
theorem claim_C10 (d L M : Int) (hL : 1 ≤ L) (hM : 1 ≤ M) :
    (MMCACovid19.step d L).next_date = d + L ∧
    stepWindow d L = Finset.Icc d (d + (L - 1)) ∧
    Disjoint (stepWindow d L) (stepWindow ((MMCACovid19.step d L).next_date) M) ∧
    stepWindow d L ∪ stepWindow ((MMCACovid19.step d L).next_date) M
      = Finset.Icc d (d + L + M - 1) := by
  refine ⟨by simp [MMCACovid19.step, date_addition]; ring, rfl, ?_, ?_⟩
  · rw [Finset.disjoint_left]
    intro a ha hb
    simp only [stepWindow, MMCACovid19.step, date_addition, Finset.mem_Icc] at ha hb
    omega
  · ext a
    simp only [stepWindow, MMCACovid19.step, date_addition, Finset.mem_union, Finset.mem_Icc]
    omega

/-- Witness for C10: two consecutive ten-day and five-day steps from
day 0. -/
theorem claim_C10_witness :
    (MMCACovid19.step 0 10).next_date = 0 + 10 ∧
    stepWindow 0 10 = Finset.Icc 0 (0 + (10 - 1)) ∧
    Disjoint (stepWindow 0 10) (stepWindow ((MMCACovid19.step 0 10).next_date) 5) ∧
    stepWindow 0 10 ∪ stepWindow ((MMCACovid19.step 0 10).next_date) 5
      = Finset.Icc 0 (0 + 10 + 5 - 1) :=
  claim_C10 0 10 5 (by norm_num) (by norm_num)

/-- Model of Python `str.split` for the dot separator, used to resolve
dotted parameter paths. -/
def splitAux : List Char → List Char → List String
  | [], acc => [⟨acc.reverse⟩]
  | '.' :: rest, acc => (⟨acc.reverse⟩ : String) :: splitAux rest []
  | c :: rest, acc => splitAux rest (c :: acc)

/-- Segments of a dotted parameter path. -/
def splitPath (p : String) : List String := splitAux p.data []

/-- Scalar JSON values: everything that is neither a sequence nor a
mapping. -/
def Json.isScalar : Json → Bool
  | .arr _ => false
  | .obj _ => false
  | _ => true

/-- Replace the value stored under a key of an object field list,
leaving every other key untouched. -/
def setField (k : String) (newv : Json) : List (String × Json) → List (String × Json)
  | [] => []
  | (k2, v2) :: rest => (k2, if k2 = k then newv else v2) :: setField k newv rest

/-- Write a value at a dotted path: succeeds exactly when every segment
resolves through mappings, and replaces only the addressed leaf. -/
def Json.setPath : Json → List String → Json → Option Json
  | _, [], v => some v
  | .obj fields, k :: ks, v =>
    (jlookup k fields).bind (fun sub =>
      (sub.setPath ks v).map (fun sub2 => .obj (setField k sub2 fields)))
  | _, _ :: _, _ => none

/-- All elements of the list as strings, if they are all strings. -/
def allStrings : List Json → Option (List String)
  | [] => some []
  | .str s :: rest => (allStrings rest).map (fun l => s :: l)
  | _ :: _ => none

/-- Modelled from the spec: the Configuration Model state
(`EpiSimConfig` of episim_utils.py, which is not under src/).  The spec:
the instance owns a working copy of the nested configuration, retains a
private unmodified copy from construction time to support reset, and
derives the ordered Group Labels from `population_params.G_labels`. -/
structure EpiSimConfig where
  original : Json
  config : Json
  group_labels : List String

/-- Group Size: the number of group labels. -/
def EpiSimConfig.group_size (c : EpiSimConfig) : Nat := c.group_labels.length

/-- Modelled from the spec: `EpiSimConfig` construction — store a deep
copy of the source as the original baseline and a working copy as
current, and extract Group Labels from the required path; fail if the
field is absent, not a sequence, or empty. -/
def EpiSimConfig.init (source : Json) : Except String EpiSimConfig :=
  match source.getKey ("population_params") with
  | some pp =>
    (match pp.getKey ("G_labels") with
     | some (.arr l) =>
       (match allStrings l with
        | some labels =>
          if labels.isEmpty then .error ("Missing or invalid G_labels in population_params")
          else .ok ⟨source, source, labels⟩
        | none => .error ("Missing or invalid G_labels in population_params"))
     | _ => .error ("Missing or invalid G_labels in population_params"))
  | none => .error ("Missing or invalid G_labels in population_params")

/-- Modelled from the spec: group-vs-scalar classification — a value is
a group vector when it is a flat sequence (every element scalar) whose
length equals Group Size. -/
def EpiSimConfig.isGroupValue (c : EpiSimConfig) (v : Json) : Bool :=
  match v with
  | .arr l => l.length == c.group_size && l.all Json.isScalar
  | _ => false

/-- Modelled from the spec: `GetParam` — resolve the dotted path against
the current configuration, failing when a segment is missing. -/
def EpiSimConfig.get_param (c : EpiSimConfig) (path : String) : Except String Json :=
  match c.config.getPath (splitPath path) with
  | some v => .ok v
  | none => .error ("Parameter path " ++ apos ++ path ++ apos ++ " not found")

/-- Modelled from the spec: `is_group_param` — classify the value
currently stored at the path. -/
def EpiSimConfig.is_group_param (c : EpiSimConfig) (path : String) : Bool :=
  match c.config.getPath (splitPath path) with
  | some v => c.isGroupValue v
  | none => false

/-- Modelled from the spec: `UpdateParam` — if the existing value is a
group-dependent sequence the new value must be a sequence of exactly
Group Size, if the existing value is scalar the new value must not be a
sequence, and otherwise the value is replaced as-is; only the current
configuration is mutated. -/
def EpiSimConfig.update_param (c : EpiSimConfig) (path : String) (v : Json) :
    Except String EpiSimConfig :=
  match c.config.getPath (splitPath path) with
  | none => .error ("Parameter path " ++ apos ++ path ++ apos ++ " not found")
  | some current =>
    if c.isGroupValue current then
      match v with
      | .arr l =>
        if l.length = c.group_size then
          (match c.config.setPath (splitPath path) v with
           | some cfg2 => .ok { c with config := cfg2 }
           | none => .error ("Parameter path " ++ apos ++ path ++ apos ++ " not found"))
        else .error ("Expected a list of length " ++ toString c.group_size)
      | _ => .error ("Expected a list of length " ++ toString c.group_size)
    else if current.isScalar then
      match v with
      | .arr _ => .error ("Expected a scalar")
      | _ =>
        (match c.config.setPath (splitPath path) v with
         | some cfg2 => .ok { c with config := cfg2 }
         | none => .error ("Parameter path " ++ apos ++ path ++ apos ++ " not found"))
    else
      match c.config.setPath (splitPath path) v with
      | some cfg2 => .ok { c with config := cfg2 }
      | none => .error ("Parameter path " ++ apos ++ path ++ apos ++ " not found")

/-- Index of a label in the ordered Group Labels (first occurrence). -/
def labelIdx (label : String) : List String → Option Nat
  | [] => none
  | l :: rest => if l = label then some 0 else (labelIdx label rest).map (fun i => i + 1)

/-- Modelled from the spec: `UpdateGroupParam` — the parameter must be
group-dependent (else `NotGroupParamError`), the label must be a member
of Group Labels (else `InvalidGroupLabelError`), and exactly the index
corresponding to the label's position is replaced. -/
def EpiSimConfig.update_group_param (c : EpiSimConfig) (path label : String) (v : Json) :
    Except String EpiSimConfig :=
  match c.config.getPath (splitPath path) with
  | none => .error ("Parameter path " ++ apos ++ path ++ apos ++ " not found")
  | some current =>
    match current with
    | .arr l =>
      if l.length == c.group_size && l.all Json.isScalar then
        match labelIdx label c.group_labels with
        | some i =>
          (match c.config.setPath (splitPath path) (.arr (l.set i v)) with
           | some cfg2 => .ok { c with config := cfg2 }
           | none => .error ("Parameter path " ++ apos ++ path ++ apos ++ " not found"))
        | none => .error ("Group label " ++ apos ++ label ++ apos ++ " not in G_labels")
      else .error ("Parameter at " ++ apos ++ path ++ apos ++ " not detected as group-dependent")
    | _ => .error ("Parameter at " ++ apos ++ path ++ apos ++ " not detected as group-dependent")

/-- Modelled from the spec: `GetGroupParam` — symmetric read with the
same label validation: resolve the path, require a sequence, and return
the entry at the label's position. -/
def EpiSimConfig.get_group_param (c : EpiSimConfig) (path label : String) :
    Except String Json :=
  match c.config.getPath (splitPath path) with
  | none => .error ("Parameter path " ++ apos ++ path ++ apos ++ " not found")
  | some (.arr l) =>
    (match labelIdx label c.group_labels with
     | some i =>
       (match l.get? i with
        | some x => .ok x
        | none => .error ("Group index out of range"))
     | none => .error ("Group label " ++ apos ++ label ++ apos ++ " not in G_labels"))
  | some _ =>
    .error ("Parameter at " ++ apos ++ path ++ apos ++ " not detected as group-dependent")

/-- Modelled from the spec: `Inject` — apply `UpdateParam` to each entry
in iteration order, fail-fast with no rollback; the returned state is
the state reached when the batch stops, paired with the error message if
one was raised. -/
def EpiSimConfig.inject (c : EpiSimConfig) :
    List (String × Json) → EpiSimConfig × Option String
  | [] => (c, none)
  | (p, v) :: rest =>
    match c.update_param p v with
    | .ok c2 => c2.inject rest
    | .error e => (c, some e)

/-- Modelled from the spec: `InjectGroupVector` — perform
`UpdateGroupParam` for each label present in the mapping, in order;
labels absent from the mapping retain their prior values; a label not in
Group Labels fails. -/
def EpiSimConfig.inject_group_vector (c : EpiSimConfig) (path : String) :
    List (String × Json) → EpiSimConfig × Option String
  | [] => (c, none)
  | (label, v) :: rest =>
    match c.update_group_param path label v with
    | .ok c2 => c2.inject_group_vector path rest
    | .error e => (c, some e)

/-- Modelled from the spec: `Reset` — restore the current configuration
to a copy of the original baseline. -/
def EpiSimConfig.reset (c : EpiSimConfig) : EpiSimConfig :=
  { c with config := c.original }

/-- A mutating call on a Configuration Model instance. -/
inductive ConfigOp where
  | upd (path : String) (v : Json)
  | updGroup (path label : String) (v : Json)
  | inj (updates : List (String × Json))
  | injGroup (path : String) (updates : List (String × Json))

/-- The state of the instance after one call; a raised error leaves the
instance at the state it had reached (updates validate before mutating,
batches stop where they failed). -/
def applyOp (c : EpiSimConfig) : ConfigOp → EpiSimConfig
  | .upd p v =>
    (match c.update_param p v with
     | .ok c2 => c2
     | .error _ => c)
  | .updGroup p label v =>
    (match c.update_group_param p label v with
     | .ok c2 => c2
     | .error _ => c)
  | .inj updates => (c.inject updates).1
  | .injGroup p updates => (c.inject_group_vector p updates).1

/-- The state after a sequence of calls. -/
def applyOps (c : EpiSimConfig) : List ConfigOp → EpiSimConfig
  | [] => c
  | op :: rest => applyOps (applyOp c op) rest

theorem jlookup_setField_self (k : String) (v2 : Json) :
    ∀ (fields : List (String × Json)), (jlookup k fields).isSome →
      jlookup k (setField k v2 fields) = some v2
  | [], h => by simp [jlookup] at h
  | (k2, w) :: rest, h => by
    simp only [setField, jlookup]
    by_cases hk : k2 = k
    · rw [if_pos hk, if_pos hk]
    · rw [if_neg hk]
      simp only [jlookup, if_neg hk] at h
      exact jlookup_setField_self k v2 rest h

theorem jlookup_setField_ne (k k' : String) (v2 : Json) (hne : k' ≠ k) :
    ∀ (fields : List (String × Json)),
      jlookup k' (setField k v2 fields) = jlookup k' fields
  | [] => rfl
  | (k2, w) :: rest => by
    simp only [setField, jlookup]
    by_cases hk2 : k2 = k'
    · have hkk : ¬ k2 = k := by
        rw [hk2]
        exact fun he => hne he
      rw [if_pos hk2, if_pos hk2, if_neg hkk]
    · rw [if_neg hk2, if_neg hk2]
      exact jlookup_setField_ne k k' v2 hne rest

theorem setPath_get_self : ∀ (segs : List String) (c v c' : Json),
    c.setPath segs v = some c' → c'.getPath segs = some v
  | [], c, v, c', h => by
    simp only [Json.setPath, Option.some_inj] at h
    subst h
    simp [Json.getPath]
  | k :: ks, c, v, c', h => by
    cases c with
    | obj fields =>
      simp only [Json.setPath] at h
      cases hl : jlookup k fields with
      | none => rw [hl] at h; simp at h
      | some sub =>
        rw [hl] at h
        simp only [Option.some_bind] at h
        cases hs : sub.setPath ks v with
        | none => rw [hs] at h; simp at h
        | some sub2 =>
          rw [hs] at h
          simp only [Option.map_some', Option.some_inj] at h
          subst h
          show (jlookup k (setField k sub2 fields)).bind (fun w => w.getPath ks) = some v
          rw [jlookup_setField_self k sub2 fields (by rw [hl]; rfl), Option.some_bind]
          exact setPath_get_self ks sub v sub2 hs
    | null => simp [Json.setPath] at h
    | bool b => simp [Json.setPath] at h
    | num lit => simp [Json.setPath] at h
    | str s => simp [Json.setPath] at h
    | arr items => simp [Json.setPath] at h

theorem setPath_get_frame : ∀ (segs : List String) (q : List String) (c v c' : Json),
    c.setPath segs v = some c' → ¬ (q <+: segs) → ¬ (segs <+: q) →
    c'.getPath q = c.getPath q
  | [], q, _, _, _, _, _, hsq => absurd List.nil_prefix hsq
  | _ :: _, [], _, _, _, _, hqs, _ => absurd List.nil_prefix hqs
  | k :: ks, k' :: qs, c, v, c', h, hqs, hsq => by
    cases c with
    | obj fields =>
      simp only [Json.setPath] at h
      cases hl : jlookup k fields with
      | none => rw [hl] at h; simp at h
      | some sub =>
        rw [hl] at h
        simp only [Option.some_bind] at h
        cases hs : sub.setPath ks v with
        | none => rw [hs] at h; simp at h
        | some sub2 =>
          rw [hs] at h
          simp only [Option.map_some', Option.some_inj] at h
          subst h
          by_cases hk : k' = k
          · subst hk
            have hqs2 : ¬ (qs <+: ks) := fun hp =>
              hqs (List.cons_prefix_cons.mpr ⟨rfl, hp⟩)
            have hsq2 : ¬ (ks <+: qs) := fun hp =>
              hsq (List.cons_prefix_cons.mpr ⟨rfl, hp⟩)
            show (jlookup k' (setField k' sub2 fields)).bind (fun w => w.getPath qs)
                = (jlookup k' fields).bind (fun w => w.getPath qs)
            rw [jlookup_setField_self k' sub2 fields (by rw [hl]; rfl), hl,
              Option.some_bind, Option.some_bind]
            exact setPath_get_frame ks qs sub v sub2 hs hqs2 hsq2
          · show (jlookup k' (setField k sub2 fields)).bind (fun w => w.getPath qs)
                = (jlookup k' fields).bind (fun w => w.getPath qs)
            rw [jlookup_setField_ne k k' sub2 hk fields]
    | null => simp [Json.setPath] at h
    | bool b => simp [Json.setPath] at h
    | num lit => simp [Json.setPath] at h
    | str s => simp [Json.setPath] at h
    | arr items => simp [Json.setPath] at h

theorem setPath_get_extend : ∀ (segs ks : List String) (c v c' : Json),
    c.setPath segs v = some c' → c'.getPath (segs ++ ks) = v.getPath ks
  | [], ks, c, v, c', h => by
    simp only [Json.setPath, Option.some_inj] at h
    subst h
    rfl
  | k :: ks', ks, c, v, c', h => by
    cases c with
    | obj fields =>
      simp only [Json.setPath] at h
      cases hl : jlookup k fields with
      | none => rw [hl] at h; simp at h
      | some sub =>
        rw [hl] at h
        simp only [Option.some_bind] at h
        cases hs : sub.setPath ks' v with
        | none => rw [hs] at h; simp at h
        | some sub2 =>
          rw [hs] at h
          simp only [Option.map_some', Option.some_inj] at h
          subst h
          show (jlookup k (setField k sub2 fields)).bind (fun w => w.getPath (ks' ++ ks))
              = v.getPath ks
          rw [jlookup_setField_self k sub2 fields (by rw [hl]; rfl), Option.some_bind]
          exact setPath_get_extend ks' ks sub v sub2 hs
    | null => simp [Json.setPath] at h
    | bool b => simp [Json.setPath] at h
    | num lit => simp [Json.setPath] at h
    | str s => simp [Json.setPath] at h
    | arr items => simp [Json.setPath] at h

theorem labelIdx_get : ∀ (ls : List String) (label : String) (i : Nat),
    labelIdx label ls = some i → ls.get? i = some label
  | [], _, _, h => by simp [labelIdx] at h
  | l :: rest, label, i, h => by
    rw [labelIdx] at h
    by_cases hl : l = label
    · rw [if_pos hl] at h
      simp only [Option.some_inj] at h
      subst h
      simp [hl]
    · rw [if_neg hl] at h
      cases hr : labelIdx label rest with
      | none => rw [hr] at h; simp at h
      | some i0 =>
        rw [hr] at h
        simp only [Option.map_some', Option.some_inj] at h
        subst h
        simpa using labelIdx_get rest label i0 hr

theorem labelIdx_lt {ls : List String} {label : String} {i : Nat}
    (h : labelIdx label ls = some i) : i < ls.length := by
  have := labelIdx_get ls label i h
  by_contra hcon
  rw [List.get?_eq_none.mpr (by omega)] at this
  exact absurd this (by simp)

theorem labelIdx_isSome_of_mem : ∀ (ls : List String) (label : String),
    label ∈ ls → (labelIdx label ls).isSome = true
  | [], _, h => by simp at h
  | l :: rest, label, h => by
    rw [labelIdx]
    by_cases hl : l = label
    · rw [if_pos hl]
      rfl
    · rw [if_neg hl]
      have hm : label ∈ rest := by
        rcases List.mem_cons.mp h with he | hm
        · exact absurd he.symm hl
        · exact hm
      cases hr : labelIdx label rest with
      | none =>
        have hs := labelIdx_isSome_of_mem rest label hm
        rw [hr] at hs
        simp at hs
      | some i0 => rfl

theorem labelIdx_none_of_not_mem : ∀ (ls : List String) (label : String),
    label ∉ ls → labelIdx label ls = none
  | [], _, _ => rfl
  | l :: rest, label, h => by
    rw [labelIdx]
    have hl : l ≠ label := fun he => h (by rw [he]; simp)
    rw [if_neg hl, labelIdx_none_of_not_mem rest label (fun hm => h (List.mem_cons_of_mem _ hm))]
    rfl

theorem get_set_self (v : Json) : ∀ (l : List Json) (i : Nat), i < l.length →
    (l.set i v).get? i = some v
  | [], i, h => by simp at h
  | a :: rest, 0, _ => rfl
  | a :: rest, i + 1, h => by
    show (rest.set i v).get? i = some v
    exact get_set_self v rest i (by simpa using h)

theorem get_set_ne (v : Json) : ∀ (l : List Json) (i j : Nat), i ≠ j →
    (l.set i v).get? j = l.get? j
  | [], i, j, _ => by cases i <;> rfl
  | a :: rest, 0, 0, h => absurd rfl h
  | a :: rest, 0, j + 1, _ => rfl
  | a :: rest, i + 1, 0, _ => rfl
  | a :: rest, i + 1, j + 1, h => by
    show (rest.set i v).get? j = rest.get? j
    exact get_set_ne v rest i j (fun he => h (by rw [he]))

theorem all_set (P : Json → Bool) (v : Json) (hv : P v = true) :
    ∀ (l : List Json) (i : Nat), l.all P = true → (l.set i v).all P = true
  | [], i, h => by cases i <;> exact h
  | a :: rest, 0, h => by
    simp only [List.set, List.all_cons, Bool.and_eq_true] at h ⊢
    exact ⟨hv, h.2⟩
  | a :: rest, i + 1, h => by
    simp only [List.set, List.all_cons, Bool.and_eq_true] at h ⊢
    exact ⟨h.1, all_set P v hv rest i h.2⟩

theorem setPath_some_of_get : ∀ (segs : List String) (c v w : Json),
    c.getPath segs = some w → ∃ c2, c.setPath segs v = some c2
  | [], c, v, _, _ => ⟨v, by cases c <;> rfl⟩
  | k :: ks, c, v, w, h => by
    cases c with
    | obj fields =>
      simp only [Json.getPath] at h
      cases hl : jlookup k fields with
      | none => rw [hl] at h; simp at h
      | some sub =>
        rw [hl, Option.some_bind] at h
        obtain ⟨sub2, hs⟩ := setPath_some_of_get ks sub v w h
        refine ⟨.obj (setField k sub2 fields), ?_⟩
        simp only [Json.setPath]
        rw [hl, Option.some_bind, hs, Option.map_some']
    | null => simp [Json.getPath] at h
    | bool b => simp [Json.getPath] at h
    | num lit => simp [Json.getPath] at h
    | str s => simp [Json.getPath] at h
    | arr items => simp [Json.getPath] at h

theorem update_param_pres {c c2 : EpiSimConfig} {p : String} {v : Json}
    (h : c.update_param p v = .ok c2) :
    c2.original = c.original ∧ c2.group_labels = c.group_labels := by
  unfold EpiSimConfig.update_param at h
  repeat' split at h
  all_goals first
    | exact (Except.noConfusion h)
    | (injection h with h2
       rw [← h2]
       exact ⟨rfl, rfl⟩)

theorem update_group_param_pres {c c2 : EpiSimConfig} {p label : String} {v : Json}
    (h : c.update_group_param p label v = .ok c2) :
    c2.original = c.original ∧ c2.group_labels = c.group_labels := by
  unfold EpiSimConfig.update_group_param at h
  repeat' split at h
  all_goals first
    | exact (Except.noConfusion h)
    | (injection h with h2
       rw [← h2]
       exact ⟨rfl, rfl⟩)

theorem inject_pres : ∀ (m : List (String × Json)) (c : EpiSimConfig),
    (c.inject m).1.original = c.original ∧ (c.inject m).1.group_labels = c.group_labels
  | [], _ => ⟨rfl, rfl⟩
  | (p, v) :: rest, c => by
    have hstep : c.inject ((p, v) :: rest) = (match c.update_param p v with
      | .ok c2 => c2.inject rest
      | .error e => (c, some e)) := rfl
    rw [hstep]
    cases hu : c.update_param p v with
    | ok c2 =>
      have h1 := update_param_pres hu
      have h2 := inject_pres rest c2
      exact ⟨h2.1.trans h1.1, h2.2.trans h1.2⟩
    | error e => exact ⟨rfl, rfl⟩

theorem igv_pres : ∀ (m : List (String × Json)) (c : EpiSimConfig) (p : String),
    (c.inject_group_vector p m).1.original = c.original ∧
    (c.inject_group_vector p m).1.group_labels = c.group_labels
  | [], _, _ => ⟨rfl, rfl⟩
  | (label, v) :: rest, c, p => by
    have hstep : c.inject_group_vector p ((label, v) :: rest) =
        (match c.update_group_param p label v with
          | .ok c2 => c2.inject_group_vector p rest
          | .error e => (c, some e)) := rfl
    rw [hstep]
    cases hu : c.update_group_param p label v with
    | ok c2 =>
      have h1 := update_group_param_pres hu
      have h2 := igv_pres rest c2 p
      exact ⟨h2.1.trans h1.1, h2.2.trans h1.2⟩
    | error e => exact ⟨rfl, rfl⟩

theorem applyOp_pres (c : EpiSimConfig) (op : ConfigOp) :
    (applyOp c op).original = c.original ∧ (applyOp c op).group_labels = c.group_labels := by
  cases op with
  | upd p v =>
    have hstep : applyOp c (.upd p v) = (match c.update_param p v with
      | .ok c2 => c2
      | .error _ => c) := rfl
    rw [hstep]
    cases hu : c.update_param p v with
    | ok c2 => exact update_param_pres hu
    | error e => exact ⟨rfl, rfl⟩
  | updGroup p label v =>
    have hstep : applyOp c (.updGroup p label v) = (match c.update_group_param p label v with
      | .ok c2 => c2
      | .error _ => c) := rfl
    rw [hstep]
    cases hu : c.update_group_param p label v with
    | ok c2 => exact update_group_param_pres hu
    | error e => exact ⟨rfl, rfl⟩
  | inj updates => exact inject_pres updates c
  | injGroup p updates => exact igv_pres updates c p

theorem applyOps_pres : ∀ (ops : List ConfigOp) (c : EpiSimConfig),
    (applyOps c ops).original = c.original ∧ (applyOps c ops).group_labels = c.group_labels
  | [], _ => ⟨rfl, rfl⟩
  | op :: rest, c => by
    have h1 := applyOp_pres c op
    have h2 := applyOps_pres rest (applyOp c op)
    exact ⟨h2.1.trans h1.1, h2.2.trans h1.2⟩

theorem init_spec {source : Json} {c0 : EpiSimConfig}
    (h : EpiSimConfig.init source = .ok c0) :
    c0.original = source ∧ c0.config = source := by
  unfold EpiSimConfig.init at h
  repeat' split at h
  all_goals first
    | exact (Except.noConfusion h)
    | (injection h with h2
       rw [← h2]
       exact ⟨rfl, rfl⟩)

/-- A small concrete configuration document used to instantiate the
Configuration Model theorems. -/
def witnessSource : Json := .obj [
  ("simulation", .obj [("engine", .str "MMCACovid19")]),
  ("epidemic_params", .obj [
    ("βᴵ", .num "0.1"),
    ("ηᵍ", .arr [.num "0.3", .num "0.3", .num "0.3"])]),
  ("population_params", .obj [
    ("G_labels", .arr [.str "Y", .str "M", .str "O"])])]

/-- The Configuration Model instance constructed from the concrete
document. -/
def witnessConfig0 : EpiSimConfig := ⟨witnessSource, witnessSource, ["Y", "M", "O"]⟩

/-- A concrete batch of mutating calls exercising `update_param`,
`update_group_param` and `inject`. -/
def witnessOps : List ConfigOp :=
  [.upd "epidemic_params.βᴵ" (.num "0.15"),
   .updGroup "epidemic_params.ηᵍ" "M" (.num "0.5"),
   .inj [("epidemic_params.βᴵ", .num "0.2")]]

/-- C4: after any finite sequence of `update_param`,
`update_group_param`, `inject` and `inject_group_vector` calls on a
freshly constructed Configuration Model instance — whether they
succeed or stop with an error — `reset` restores the value at every
path to the value it had immediately after construction. -/
theorem claim_C4 (source : Json) (c0 : EpiSimConfig)
    (h : EpiSimConfig.init source = .ok c0) (ops : List ConfigOp) :
    ∀ q : List String,
      ((applyOps c0 ops).reset).config.getPath q = c0.config.getPath q := by
  intro q
  have hpres := applyOps_pres ops c0
  have hinit := init_spec h
  show (applyOps c0 ops).original.getPath q = c0.config.getPath q
  rw [hpres.1, hinit.1, ← hinit.2]

/-- Witness for C4 on the concrete instance and batch. -/
theorem claim_C4_witness :
    EpiSimConfig.init witnessSource = .ok witnessConfig0 ∧
    ((applyOps witnessConfig0 witnessOps).reset).config.getPath
        ["epidemic_params", "βᴵ"]
      = witnessConfig0.config.getPath ["epidemic_params", "βᴵ"] :=
  ⟨rfl, claim_C4 witnessSource witnessConfig0 rfl witnessOps ["epidemic_params", "βᴵ"]⟩

theorem get_group_param_arr {c : EpiSimConfig} {p label : String} {l : List Json}
    {i : Nat} {x : Json}
    (hcur : c.config.getPath (splitPath p) = some (Json.arr l))
    (hidx : labelIdx label c.group_labels = some i)
    (hx : l.get? i = some x) :
    c.get_group_param p label = .ok x := by
  simp only [EpiSimConfig.get_group_param, hcur, hidx, hx]

theorem upg_spec (c : EpiSimConfig) (p label : String) (v : Json) (l : List Json) (i : Nat)
    (hcur : c.config.getPath (splitPath p) = some (Json.arr l))
    (hlen : l.length = c.group_size) (hsc : l.all Json.isScalar = true)
    (hidx : labelIdx label c.group_labels = some i) :
    ∃ cfg2, c.config.setPath (splitPath p) (Json.arr (l.set i v)) = some cfg2 ∧
      c.update_group_param p label v = .ok { c with config := cfg2 } := by
  obtain ⟨cfg2, hset⟩ :=
    setPath_some_of_get (splitPath p) c.config (Json.arr (l.set i v)) (Json.arr l) hcur
  refine ⟨cfg2, hset, ?_⟩
  simp only [EpiSimConfig.update_group_param, hcur, hidx, hset, hlen, hsc,
    beq_self_eq_true, Bool.and_self, if_true]

theorem upg_fail_label (c : EpiSimConfig) (p label : String) (v : Json) (l : List Json)
    (hcur : c.config.getPath (splitPath p) = some (Json.arr l))
    (hlen : l.length = c.group_size) (hsc : l.all Json.isScalar = true)
    (hnot : label ∉ c.group_labels) :
    c.update_group_param p label v
      = .error ("Group label " ++ apos ++ label ++ apos ++ " not in G_labels") := by
  have hidx := labelIdx_none_of_not_mem c.group_labels label hnot
  simp only [EpiSimConfig.update_group_param, hcur, hidx, hlen, hsc,
    beq_self_eq_true, Bool.and_self, if_true]

theorem upg_read_back (c : EpiSimConfig) (p label : String) (v : Json) (l : List Json)
    (i : Nat) (cfg2 : Json)
    (hlen : l.length = c.group_size)
    (hidx : labelIdx label c.group_labels = some i)
    (hget2 : cfg2.getPath (splitPath p) = some (Json.arr (l.set i v))) :
    ({ c with config := cfg2 } : EpiSimConfig).get_group_param p label = .ok v := by
  have hi_lt : i < l.length := by
    rw [hlen]
    exact labelIdx_lt hidx
  exact get_group_param_arr (c := { c with config := cfg2 }) hget2 hidx
    (get_set_self v l i hi_lt)

theorem upg_frame_label (c : EpiSimConfig) (p label label2 : String) (v : Json)
    (l : List Json) (i : Nat) (cfg2 : Json)
    (hcur : c.config.getPath (splitPath p) = some (Json.arr l))
    (hlen : l.length = c.group_size)
    (hidx : labelIdx label c.group_labels = some i)
    (hget2 : cfg2.getPath (splitPath p) = some (Json.arr (l.set i v)))
    (hmem2 : label2 ∈ c.group_labels) (hne : label2 ≠ label) :
    ({ c with config := cfg2 } : EpiSimConfig).get_group_param p label2
      = c.get_group_param p label2 := by
  obtain ⟨i2, hidx2⟩ :=
    Option.isSome_iff_exists.mp (labelIdx_isSome_of_mem c.group_labels label2 hmem2)
  have hne_i : i ≠ i2 := by
    intro he
    have h1 := labelIdx_get c.group_labels label i hidx
    have h2 := labelIdx_get c.group_labels label2 i2 hidx2
    rw [he] at h1
    rw [h1] at h2
    exact hne (Option.some_inj.mp h2).symm
  have hi2_lt : i2 < l.length := by
    rw [hlen]
    exact labelIdx_lt hidx2
  have hx : l.get? i2 = some (l.get ⟨i2, hi2_lt⟩) := List.get?_eq_get hi2_lt
  rw [get_group_param_arr (c := { c with config := cfg2 }) hget2 hidx2
      (by rw [get_set_ne v l i i2 hne_i]; exact hx),
    get_group_param_arr hcur hidx2 hx]

/-- C5: for every group-dependent parameter — a path currently holding
a flat sequence of scalars of length Group Size — every label in Group
Labels and every value, `update_group_param` succeeds and replaces
exactly the entry at the label's position: a subsequent
`get_group_param` with the same label returns the new value, reads at
every other label are unchanged, and the value at every other path of
the configuration is unchanged. -/
theorem claim_C5 (c : EpiSimConfig) (p label : String) (v : Json) (l : List Json)
    (hcur : c.config.getPath (splitPath p) = some (Json.arr l))
    (hlen : l.length = c.group_size) (hsc : l.all Json.isScalar = true)
    (hmem : label ∈ c.group_labels) :
    ∃ (c2 : EpiSimConfig) (i : Nat),
      labelIdx label c.group_labels = some i ∧
      c.update_group_param p label v = .ok c2 ∧
      c2.config.getPath (splitPath p) = some (Json.arr (l.set i v)) ∧
      c2.get_group_param p label = .ok v ∧
      (∀ label2, label2 ∈ c.group_labels → label2 ≠ label →
        c2.get_group_param p label2 = c.get_group_param p label2) ∧
      (∀ q : List String, ¬ (q <+: splitPath p) → ¬ (splitPath p <+: q) →
        c2.config.getPath q = c.config.getPath q) := by
  obtain ⟨i, hidx⟩ :=
    Option.isSome_iff_exists.mp (labelIdx_isSome_of_mem c.group_labels label hmem)
  obtain ⟨cfg2, hset, hupd⟩ := upg_spec c p label v l i hcur hlen hsc hidx
  have hget2 : cfg2.getPath (splitPath p) = some (Json.arr (l.set i v)) :=
    setPath_get_self (splitPath p) c.config (Json.arr (l.set i v)) cfg2 hset
  refine ⟨{ c with config := cfg2 }, i, hidx, hupd, hget2, ?_, ?_, ?_⟩
  · exact upg_read_back c p label v l i cfg2 hlen hidx hget2
  · intro label2 hmem2 hne
    exact upg_frame_label c p label label2 v l i cfg2 hcur hlen hidx hget2 hmem2 hne
  · intro q hq1 hq2
    exact setPath_get_frame (splitPath p) q c.config (Json.arr (l.set i v)) cfg2 hset hq1 hq2

/-- Witness for C5 on the concrete instance: update the middle label of
a three-group vector. -/
theorem claim_C5_witness :
    ∃ (c2 : EpiSimConfig) (i : Nat),
      labelIdx "M" witnessConfig0.group_labels = some i ∧
      witnessConfig0.update_group_param "epidemic_params.ηᵍ" "M" (Json.num "0.5")
        = .ok c2 ∧
      c2.config.getPath (splitPath "epidemic_params.ηᵍ")
        = some (Json.arr ([Json.num "0.3", Json.num "0.3", Json.num "0.3"].set i
            (Json.num "0.5"))) ∧
      c2.get_group_param "epidemic_params.ηᵍ" "M" = .ok (Json.num "0.5") ∧
      (∀ label2, label2 ∈ witnessConfig0.group_labels → label2 ≠ "M" →
        c2.get_group_param "epidemic_params.ηᵍ" label2
          = witnessConfig0.get_group_param "epidemic_params.ηᵍ" label2) ∧
      (∀ q : List String, ¬ (q <+: splitPath "epidemic_params.ηᵍ") →
        ¬ (splitPath "epidemic_params.ηᵍ" <+: q) →
        c2.config.getPath q = witnessConfig0.config.getPath q) :=
  claim_C5 witnessConfig0 "epidemic_params.ηᵍ" "M" (Json.num "0.5")
    [Json.num "0.3", Json.num "0.3", Json.num "0.3"] rfl rfl rfl (by decide)

/-- C6: when the value currently stored at a path is a group-dependent
sequence of length Group Size, `update_param` with a replacement that
is not a sequence of exactly that length fails with the message
stating the expected list length; and when the current value is a
scalar, `update_param` with a sequence fails with the expected-scalar
message. -/
theorem claim_C6 (c : EpiSimConfig) (p : String) (v current : Json)
    (hcur : c.config.getPath (splitPath p) = some current) :
    (c.isGroupValue current = true →
      (∀ lv, v = Json.arr lv → lv.length ≠ c.group_size) →
      c.update_param p v
        = .error ("Expected a list of length " ++ toString c.group_size)) ∧
    (current.isScalar = true → (∃ lv, v = Json.arr lv) →
      c.update_param p v = .error ("Expected a scalar")) := by
  constructor
  · intro hgrp hv
    cases v with
    | arr lv =>
      simp only [EpiSimConfig.update_param, hcur, hgrp, if_true]
      rw [if_neg (hv lv rfl)]
    | null => simp only [EpiSimConfig.update_param, hcur, hgrp, if_true]
    | bool b => simp only [EpiSimConfig.update_param, hcur, hgrp, if_true]
    | num lit => simp only [EpiSimConfig.update_param, hcur, hgrp, if_true]
    | str s => simp only [EpiSimConfig.update_param, hcur, hgrp, if_true]
    | obj fields => simp only [EpiSimConfig.update_param, hcur, hgrp, if_true]
  · intro hsc hex
    obtain ⟨lv, rfl⟩ := hex
    have hgrpf : c.isGroupValue current = false := by
      cases current <;> first
        | rfl
        | simp [Json.isScalar] at hsc
    simp only [EpiSimConfig.update_param, hcur, hgrpf, Bool.false_eq_true, if_false,
      hsc, if_true]

/-- Witness for C6 on the concrete instance: a scalar offered for a
group vector, and a sequence offered for a scalar. -/
theorem claim_C6_witness :
    witnessConfig0.update_param "epidemic_params.ηᵍ" (Json.num "0.5")
      = .error ("Expected a list of length " ++ toString witnessConfig0.group_size) ∧
    witnessConfig0.update_param "epidemic_params.βᴵ" (Json.arr [])
      = .error ("Expected a scalar") :=
  ⟨(claim_C6 witnessConfig0 "epidemic_params.ηᵍ" (Json.num "0.5")
      (Json.arr [Json.num "0.3", Json.num "0.3", Json.num "0.3"]) rfl).1 rfl
      (fun _ h => Json.noConfusion h),
   (claim_C6 witnessConfig0 "epidemic_params.βᴵ" (Json.arr []) (Json.num "0.1") rfl).2
      rfl ⟨[], rfl⟩⟩

theorem igv_ok (p : String) : ∀ (m : List (String × Json)) (c : EpiSimConfig)
    (l : List Json),
    c.config.getPath (splitPath p) = some (Json.arr l) →
    l.length = c.group_size → l.all Json.isScalar = true →
    (∀ kv ∈ m, (Prod.snd kv).isScalar = true) →
    (∀ kv ∈ m, Prod.fst kv ∈ c.group_labels) →
    (m.map Prod.fst).Nodup →
    ∃ c2, c.inject_group_vector p m = (c2, none) ∧
      c2.group_labels = c.group_labels ∧
      (∀ label v2, (label, v2) ∈ m → c2.get_group_param p label = .ok v2) ∧
      (∀ label, label ∈ c.group_labels → label ∉ m.map Prod.fst →
        c2.get_group_param p label = c.get_group_param p label)
  | [], c, _, _, _, _, _, _, _ => ⟨c, rfl, rfl, by simp, fun _ _ _ => rfl⟩
  | (label, v2) :: rest, c, l, hcur, hlen, hsc, hvals, hkeys, hnodup => by
    have hmem : label ∈ c.group_labels := hkeys (label, v2) (List.mem_cons_self _ _)
    obtain ⟨i, hidx⟩ :=
      Option.isSome_iff_exists.mp (labelIdx_isSome_of_mem c.group_labels label hmem)
    obtain ⟨cfg2, hset, hupd⟩ := upg_spec c p label v2 l i hcur hlen hsc hidx
    have hget2 : cfg2.getPath (splitPath p) = some (Json.arr (l.set i v2)) :=
      setPath_get_self (splitPath p) c.config (Json.arr (l.set i v2)) cfg2 hset
    have hvs : (v2 : Json).isScalar = true := hvals (label, v2) (List.mem_cons_self _ _)
    have hlen2 : (l.set i v2).length = c.group_size := by
      rw [List.length_set]
      exact hlen
    have hsc2 : (l.set i v2).all Json.isScalar = true := all_set _ _ hvs l i hsc
    have hcons : (label :: rest.map Prod.fst).Nodup := hnodup
    have hlabmem : label ∉ rest.map Prod.fst := (List.nodup_cons.mp hcons).1
    have hnodup2 : (rest.map Prod.fst).Nodup := (List.nodup_cons.mp hcons).2
    obtain ⟨c2, hrun, hlab, hmemr, hframe⟩ :=
      igv_ok p rest { c with config := cfg2 } (l.set i v2) hget2 hlen2 hsc2
        (fun kv hkv => hvals kv (List.mem_cons_of_mem _ hkv))
        (fun kv hkv => hkeys kv (List.mem_cons_of_mem _ hkv))
        hnodup2
    refine ⟨c2, ?_, hlab, ?_, ?_⟩
    · have hstep : c.inject_group_vector p ((label, v2) :: rest) =
          (match c.update_group_param p label v2 with
            | .ok cc => cc.inject_group_vector p rest
            | .error e => (c, some e)) := rfl
      rw [hstep, hupd]
      exact hrun
    · intro label3 v3 hm
      rcases List.mem_cons.mp hm with he | hm2
      · injection he with h1 h2
        rw [h1, h2]
        rw [hframe label hmem hlabmem]
        exact upg_read_back c p label v2 l i cfg2 hlen hidx hget2
      · exact hmemr label3 v3 hm2
    · intro label3 hmem3 hnin
      have hne : label3 ≠ label := by
        intro he
        exact hnin (by rw [he]; simp)
      have hnin_rest : label3 ∉ rest.map Prod.fst := by
        intro hh
        exact hnin (by simp [hh])
      rw [hframe label3 hmem3 hnin_rest]
      exact upg_frame_label c p label label3 v2 l i cfg2 hcur hlen hidx hget2 hmem3 hne

theorem igv_fail (p : String) : ∀ (pre : List (String × Json)) (c : EpiSimConfig)
    (l : List Json) (label : String) (v2 : Json) (rest : List (String × Json)),
    c.config.getPath (splitPath p) = some (Json.arr l) →
    l.length = c.group_size → l.all Json.isScalar = true →
    (∀ kv ∈ pre, (Prod.snd kv).isScalar = true) →
    (∀ kv ∈ pre, Prod.fst kv ∈ c.group_labels) →
    label ∉ c.group_labels →
    (c.inject_group_vector p (pre ++ (label, v2) :: rest)).2
      = some ("Group label " ++ apos ++ label ++ apos ++ " not in G_labels")
  | [], c, l, label, v2, rest, hcur, hlen, hsc, _, _, hnot => by
    have hfail := upg_fail_label c p label v2 l hcur hlen hsc hnot
    have hstep : c.inject_group_vector p ([] ++ (label, v2) :: rest) =
        (match c.update_group_param p label v2 with
          | .ok cc => cc.inject_group_vector p rest
          | .error e => (c, some e)) := rfl
    rw [hstep, hfail]
  | (label0, v0) :: pre, c, l, label, v2, rest, hcur, hlen, hsc, hvals, hkeys, hnot => by
    have hmem0 : label0 ∈ c.group_labels := hkeys (label0, v0) (List.mem_cons_self _ _)
    obtain ⟨i, hidx⟩ :=
      Option.isSome_iff_exists.mp (labelIdx_isSome_of_mem c.group_labels label0 hmem0)
    obtain ⟨cfg2, hset, hupd⟩ := upg_spec c p label0 v0 l i hcur hlen hsc hidx
    have hget2 : cfg2.getPath (splitPath p) = some (Json.arr (l.set i v0)) :=
      setPath_get_self (splitPath p) c.config (Json.arr (l.set i v0)) cfg2 hset
    have hvs : (v0 : Json).isScalar = true := hvals (label0, v0) (List.mem_cons_self _ _)
    have hlen2 : (l.set i v0).length = c.group_size := by
      rw [List.length_set]
      exact hlen
    have hsc2 : (l.set i v0).all Json.isScalar = true := all_set _ _ hvs l i hsc
    have hstep : c.inject_group_vector p
          (((label0, v0) :: pre) ++ (label, v2) :: rest) =
        (match c.update_group_param p label0 v0 with
          | .ok cc => cc.inject_group_vector p (pre ++ (label, v2) :: rest)
          | .error e => (c, some e)) := rfl
    rw [hstep, hupd]
    exact igv_fail p pre { c with config := cfg2 } (l.set i v0) label v2 rest hget2
      hlen2 hsc2
      (fun kv hkv => hvals kv (List.mem_cons_of_mem _ hkv))
      (fun kv hkv => hkeys kv (List.mem_cons_of_mem _ hkv))
      hnot

/-- C7: for a group-dependent parameter and a mapping from labels to
scalar values, `inject_group_vector` sets, for each label present in
the mapping, the entry at that label's position to the mapped value,
leaves entries for labels absent from the mapping at their prior
values, and — when the mapping contains a key that is not in Group
Labels and every key before it is — stops with the invalid-group-label
error for that key. -/
theorem claim_C7 (c : EpiSimConfig) (p : String) (m : List (String × Json))
    (l : List Json)
    (hcur : c.config.getPath (splitPath p) = some (Json.arr l))
    (hlen : l.length = c.group_size) (hsc : l.all Json.isScalar = true)
    (hvals : ∀ kv ∈ m, (Prod.snd kv).isScalar = true) :
    ((∀ kv ∈ m, Prod.fst kv ∈ c.group_labels) → (m.map Prod.fst).Nodup →
      ∃ c2, c.inject_group_vector p m = (c2, none) ∧
        (∀ label v2, (label, v2) ∈ m → c2.get_group_param p label = .ok v2) ∧
        (∀ label, label ∈ c.group_labels → label ∉ m.map Prod.fst →
          c2.get_group_param p label = c.get_group_param p label)) ∧
    (∀ (pre : List (String × Json)) (label : String) (v2 : Json)
        (rest : List (String × Json)),
      m = pre ++ (label, v2) :: rest →
      (∀ kv ∈ pre, Prod.fst kv ∈ c.group_labels) →
      label ∉ c.group_labels →
      (c.inject_group_vector p m).2
        = some ("Group label " ++ apos ++ label ++ apos ++ " not in G_labels")) := by
  constructor
  · intro hkeys hnodup
    obtain ⟨c2, h1, _, h3, h4⟩ := igv_ok p m c l hcur hlen hsc hvals hkeys hnodup
    exact ⟨c2, h1, h3, h4⟩
  · intro pre label v2 rest hm hkeys hnot
    subst hm
    exact igv_fail p pre c l label v2 rest hcur hlen hsc
      (fun kv hkv => hvals kv (List.mem_append_left _ hkv)) hkeys hnot

/-- Witness for C7 on the concrete instance: a partial vector over two
of the three labels, and a batch with an unknown label. -/
theorem claim_C7_witness :
    (∃ c2, witnessConfig0.inject_group_vector "epidemic_params.ηᵍ"
        [("Y", Json.num "0.35"), ("O", Json.num "0.45")] = (c2, none) ∧
      (∀ label v2, (label, v2) ∈ [("Y", Json.num "0.35"), ("O", Json.num "0.45")] →
        c2.get_group_param "epidemic_params.ηᵍ" label = .ok v2) ∧
      (∀ label, label ∈ witnessConfig0.group_labels →
        label ∉ [("Y", Json.num "0.35"), ("O", Json.num "0.45")].map Prod.fst →
        c2.get_group_param "epidemic_params.ηᵍ" label
          = witnessConfig0.get_group_param "epidemic_params.ηᵍ" label)) ∧
    (witnessConfig0.inject_group_vector "epidemic_params.ηᵍ"
        [("X", Json.num "0.9")]).2
      = some ("Group label " ++ apos ++ "X" ++ apos ++ " not in G_labels") :=
  ⟨(claim_C7 witnessConfig0 "epidemic_params.ηᵍ"
      [("Y", Json.num "0.35"), ("O", Json.num "0.45")]
      [Json.num "0.3", Json.num "0.3", Json.num "0.3"] rfl rfl rfl
      (by decide)).1 (by decide) (by decide),
   (claim_C7 witnessConfig0 "epidemic_params.ηᵍ" [("X", Json.num "0.9")]
      [Json.num "0.3", Json.num "0.3", Json.num "0.3"] rfl rfl rfl
      (by decide)).2 [] "X" (Json.num "0.9") [] rfl (by decide) (by decide)⟩

end EpiSimVer
